import Mathlib

/-!
# mhalo: buffer pool, circle painter and per-output render state machine

A shallow embedding of `src/shm.c` and of the rendering part of `src/main.c`.

Conventions of the embedding

* C `int` values are `Int`; the claims exclude signed overflow, so arithmetic is
  exact.  The two narrowing conversions into the 16-bit fields of
  `pixman_rectangle16_t` are kept explicit (`int16`, `uint16`).
* Heap objects are addressed by `Nat`.  `malloc` is a counter of fresh
  addresses, so an address names one object for ever.
* Dereferencing a pointer to an object that is not live is undefined behaviour;
  functions that may do so return `Option`, with `none` for that case.
* Calls into libwayland and pixman are recorded, in order, in a log.
-/

namespace Mhalo

/-! ## draw_circle (main.c 93-116) -/

/-- The `pixman_rectangle16_t` argument of `pixman_image_fill_rectangles`:
`int16_t x, y; uint16_t width, height`. -/
structure pixman_rectangle16 where
  x : Int
  y : Int
  width : Int
  height : Int
deriving DecidableEq, Repr

/-- Conversion of an `int` to `int16_t`. -/
def int16 (v : Int) : Int := (v + 32768) % 65536 - 32768

/-- Conversion of an `int` to `uint16_t`. -/
def uint16 (v : Int) : Int := v % 65536

/-- The values `lo, lo+1, ..., hi` visited by `for (int k = lo; k <= hi; k++)`. -/
def int_range (lo hi : Int) : List Int :=
  (List.range (hi - lo + 1).toNat).map (fun (k : Nat) => lo + (k : Int))

/-- Body of the inner loop of `draw_circle` for column `i` of row `j`; the pair
is `(start, end)`. -/
def draw_circle_col (width height x y radius j : Int) (se : Int × Int) (i : Int) :
    Int × Int :=
  if 0 ≤ i ∧ i < width ∧ 0 ≤ j ∧ j < height then
    let dx := i - x
    let dy := j - y
    if dx * dx + dy * dy ≤ radius * radius then
      (if se.1 < 0 then i else se.1, i)
    else se
  else se

/-- The inner loop of `draw_circle` on row `j`, from `start = -1, end = -1`. -/
def draw_circle_row (width height x y radius j : Int) : Int × Int :=
  (int_range (x - radius) (x + radius)).foldl
    (draw_circle_col width height x y radius j) (-1, -1)

/-- The rectangle handed to `pixman_image_fill_rectangles` after the inner loop
of row `j`, if any (`if (end > 0)`). -/
def draw_circle_rect (j : Int) (se : Int × Int) : Option pixman_rectangle16 :=
  if se.2 > 0 then some ⟨int16 se.1, int16 j, uint16 (se.2 - se.1), 1⟩ else none

/-- The function `draw_circle` on an image of the given size: the rectangles it
fills, in order. -/
def draw_circle (width height x y radius : Int) : List pixman_rectangle16 :=
  (int_range (y - radius) (y + radius)).filterMap
    (fun j => draw_circle_rect j (draw_circle_row width height x y radius j))

/-- Columns blended by a fill of `r` on row `j`: pixman fills
`x ≤ i < x + width` on the rows `y ≤ j < y + height`. -/
def covers (r : pixman_rectangle16) (i j : Int) : Prop :=
  r.x ≤ i ∧ i < r.x + r.width ∧ r.y ≤ j ∧ j < r.y + r.height

instance (r : pixman_rectangle16) (i j : Int) : Decidable (covers r i j) := by
  unfold covers; infer_instance

/-- Loop invariant of the inner loop: nothing found yet, or `start ≤ end` are
columns of the image and the row is a row of the image. -/
def row_inv (width height j : Int) (se : Int × Int) : Prop :=
  se = (-1, -1) ∨ (0 ≤ se.1 ∧ se.1 ≤ se.2 ∧ se.2 < width ∧ 0 ≤ j ∧ j < height)

/-! ## The buffer pool (shm.c) -/

/-- The `struct buffer` of shm.h: the fields the pool logic reads and writes.  The
mapping, the `wl_buffer` and the pixman image are created and destroyed with the
object and take no part in any decision. -/
structure buffer where
  width : Int
  height : Int
  cookie : Nat
  busy : Bool
  last_used : Int
deriving DecidableEq, Repr

/-- `#define BUFFER_TIMEOUT_SEC 3`. -/
def BUFFER_TIMEOUT_SEC : Int := 3

/-- Memory of the pool: the `struct buffer` objects that are live, by address, the
list `buffer_queue` of buffer pointers, and the next address `malloc` hands out. -/
structure shm_state where
  heap : Nat → Option buffer
  buffer_queue : List Nat
  next : Nat

/-- The pool when the program starts: `buffer_queue = tll_init()`, no buffer. -/
def shm_init : shm_state := ⟨fun _ => none, [], 0⟩

/-- `buffer_destroy`: the object at `p` is freed. -/
def buffer_destroy (heap : Nat → Option buffer) (p : Nat) : Nat → Option buffer :=
  Function.update heap p none

/-- `buffer_release(data = p)` at time `now`. -/
def buffer_release (s : shm_state) (now : Int) (p : Nat) : Option shm_state :=
  match s.heap p with
  | none => none
  | some b =>
    some { s with
      heap := Function.update s.heap p (some { b with busy := false, last_used := now })
      buffer_queue := s.buffer_queue ++ [p] }

/-- The test of `cleanup_old_buffers` on one buffer:
`!busy && difftime(now, last_used) >= BUFFER_TIMEOUT_SEC`. -/
def is_old (now : Int) (b : buffer) : Bool :=
  !b.busy && decide (now - b.last_used ≥ BUFFER_TIMEOUT_SEC)

/-- The `tll_foreach` of `cleanup_old_buffers` over the remaining nodes: the nodes
kept and the heap afterwards. -/
def cleanup_old_buffers_loop (now : Int) :
    List Nat → (Nat → Option buffer) → Option (List Nat × (Nat → Option buffer))
  | [], heap => some ([], heap)
  | p :: rest, heap =>
    match heap p with
    | none => none
    | some b =>
      if is_old now b then
        cleanup_old_buffers_loop now rest (buffer_destroy heap p)
      else
        match cleanup_old_buffers_loop now rest heap with
        | none => none
        | some (kept, heap1) => some (p :: kept, heap1)

/-- `cleanup_old_buffers()` with `time(NULL) = now`. -/
def cleanup_old_buffers (s : shm_state) (now : Int) : Option shm_state :=
  match cleanup_old_buffers_loop now s.buffer_queue s.heap with
  | none => none
  | some (kept, heap1) => some { s with heap := heap1, buffer_queue := kept }

/-- The test of the reuse loop of `shm_get_buffer` on one buffer. -/
def is_match (width height : Int) (cookie : Nat) (b : buffer) : Bool :=
  !b.busy && b.width == width && b.height == height && b.cookie == cookie

/-- The reuse loop of `shm_get_buffer` over the remaining nodes: `some none` when
it runs to the end, else the buffer found and the queue without its node. -/
def find_reusable (heap : Nat → Option buffer) (width height : Int) (cookie : Nat) :
    List Nat → Option (Option (Nat × List Nat))
  | [] => some none
  | p :: rest =>
    match heap p with
    | none => none
    | some b =>
      if is_match width height cookie b then some (some (p, rest))
      else
        match find_reusable heap width height cookie rest with
        | none => none
        | some none => some none
        | some (some (q, rest1)) => some (some (q, p :: rest1))

/-- `shm_get_buffer(shm, width, height, cookie)` with `time(NULL) = now`, the
clock giving the same second when it is read again for `last_used` of a new
buffer.  `alloc_ok` tells whether the system calls and protocol requests that
create a new buffer (`memfd_create`, `ftruncate`, `mmap`, the pool, the
`wl_buffer`, the pixman image) all succeed; on any failure the code frees what it
took and returns `NULL` with the pool as the cleanup left it.  The result is the
pointer returned (`none` for `NULL`) and the pool afterwards. -/
def shm_get_buffer (s : shm_state) (now : Int) (alloc_ok : Bool) (width height : Int)
    (cookie : Nat) : Option (Option Nat × shm_state) :=
  match cleanup_old_buffers s now with
  | none => none
  | some s1 =>
    match find_reusable s1.heap width height cookie s1.buffer_queue with
    | none => none
    | some (some (p, rest)) =>
      match s1.heap p with
      | none => none
      | some b =>
        some (some p, { s1 with
          buffer_queue := rest
          heap := Function.update s1.heap p (some { b with busy := true, cookie := cookie }) })
    | some none =>
      if alloc_ok then
        some (some s1.next, { s1 with
          heap := Function.update s1.heap s1.next (some ⟨width, height, cookie, true, now⟩)
          next := s1.next + 1 })
      else some (none, s1)

/-- A buffer pointer names a live, idle buffer that `cleanup_old_buffers` destroys
at time `now`. -/
def expired (now : Int) (heap : Nat → Option buffer) (p : Nat) : Bool :=
  match heap p with
  | some b => is_old now b
  | none => false

/-- A buffer pointer names a live buffer the reuse loop accepts. -/
def reusable (heap : Nat → Option buffer) (width height : Int) (cookie : Nat) (p : Nat) :
    Bool :=
  match heap p with
  | some b => is_match width height cookie b
  | none => false

/-- Well-formed pool: the queue has no pointer twice, it holds exactly the live
buffers that are not busy, and no object lives at an address `malloc` has not yet
handed out. -/
def pool_wf (s : shm_state) : Prop :=
  s.buffer_queue.Nodup ∧
  (∀ p, p ∈ s.buffer_queue ↔ ∃ b, s.heap p = some b ∧ b.busy = false) ∧
  (∀ p, s.next ≤ p → s.heap p = none)

/-- The queue after `cleanup_old_buffers` at time `now`: the nodes whose buffer is
not old, in their order. -/
def kept_queue (now : Int) (s : shm_state) : List Nat :=
  s.buffer_queue.filter (fun p => !expired now s.heap p)

/-- The heap after `cleanup_old_buffers` at time `now`: the old buffers of the
queue are gone. -/
def cleaned_heap (now : Int) (s : shm_state) : Nat → Option buffer :=
  fun x => if x ∈ s.buffer_queue ∧ expired now s.heap x = true then none else s.heap x

/-- A call into the pool: `shm_get_buffer` or the `release` event of a buffer. -/
inductive shm_op where
  | get (now : Int) (alloc_ok : Bool) (width height : Int) (cookie : Nat)
  | release (now : Int) (p : Nat)

/-- One call into the pool.  A `release` is delivered only for a buffer that is
busy; `none` stands for a sequence that cannot happen or for a fault. -/
def shm_step (s : shm_state) : shm_op → Option shm_state
  | .get now alloc_ok width height cookie =>
    (shm_get_buffer s now alloc_ok width height cookie).map Prod.snd
  | .release now p =>
    match s.heap p with
    | some b => if b.busy then buffer_release s now p else none
    | none => none

/-- A sequence of calls into the pool. -/
def shm_run : shm_state → List shm_op → Option shm_state
  | s, [] => some s
  | s, op :: ops =>
    match shm_step s op with
    | none => none
    | some s1 => shm_run s1 ops

/-- A buffer pointer names a live buffer released less than `BUFFER_TIMEOUT_SEC`
before `now`. -/
def young (now : Int) (heap : Nat → Option buffer) (p : Nat) : Bool :=
  match heap p with
  | some b => decide (now - b.last_used < BUFFER_TIMEOUT_SEC)
  | none => false

/-! ## Outputs and rendering (main.c) -/

/-- The `struct output` of main.c.  `wl_output`, `make` and `model` are left out:
the rendering code never reads them.  `surf` and `layer` are protocol object ids,
`none` for `NULL`. -/
structure output where
  wl_name : Nat
  scale : Int
  width : Int
  height : Int
  render_width : Int
  render_height : Int
  surf : Option Nat
  layer : Option Nat
  configured : Bool
  last_x : Int
  last_y : Int
  frame_done : Bool
  wants_render : Bool
  rendered_without_cursor : Bool
deriving DecidableEq, Repr

/-- The output `handle_global` appends for a new `wl_output` global:
`{.wl_name = name, .surf = NULL, .layer = NULL, .frame_done = true}`, every other
field zero, with the surface and layer surface of `add_surface_to_output`. -/
def new_output (name : Nat) (surf layer : Option Nat) : output :=
  { wl_name := name, scale := 0, width := 0, height := 0, render_width := 0,
    render_height := 0, surf := surf, layer := layer, configured := false,
    last_x := 0, last_y := 0, frame_done := true, wants_render := false,
    rendered_without_cursor := false }

/-- Calls into pixman and libwayland made by the rendering code. -/
inductive call where
  | composite_fill (buf : Nat) (width height : Int)
  | fill_rectangle (buf : Nat) (r : pixman_rectangle16)
  | set_buffer_scale (surf : Option Nat) (scale : Int)
  | attach (surf : Option Nat) (buf : Nat)
  | damage_buffer (surf : Option Nat) (x y width height : Int)
  | frame (surf : Option Nat) (data : Nat)
  | commit (surf : Option Nat)
  | ack_configure (surface serial : Nat)
  | layer_surface_destroy (layer : Nat)
  | surface_destroy (surf : Nat)
deriving DecidableEq, Repr

/-- The globals of main.c that rendering touches, the pool of shm.c, the
`wl_callback` objects that are live (each by the `data` pointer of its listener)
and the log of calls made so far. -/
structure state where
  cursor_x : Int
  cursor_y : Int
  current_output : Option Nat
  outputs : List Nat
  mem : Nat → Option output
  shm : shm_state
  callbacks : List Nat
  calls : List call

/-- The globals at program start with the given outputs in the list `outputs`:
`cursor_x = cursor_y = 100`, `current_output = NULL`, an empty pool. -/
def state_init (outputs : List Nat) (mem : Nat → Option output) : state :=
  { cursor_x := 100, cursor_y := 100, current_output := none, outputs := outputs,
    mem := mem, shm := shm_init, callbacks := [], calls := [] }

/-- The skip test of `render`:
`output != current_output && output->rendered_without_cursor`. -/
def render_skips (s : state) (p : Nat) (o : output) : Bool :=
  s.current_output != some p && o.rendered_without_cursor

/-- The part of `render` after a buffer `buf` (object `b`) was obtained, for the
output object `output` at address `p`: the new output object and the calls made
up to the circle and its damage. -/
def render_paint (s : state) (p : Nat) (output : output) (buf : Nat) (b : buffer) :
    Mhalo.output × List call :=
  let width := output.render_width
  let height := output.render_height
  let scale := output.scale
  let output1 := { output with frame_done := false }
  let calls1 : List call :=
    [.composite_fill buf (width * scale) (height * scale),
     .set_buffer_scale output.surf scale,
     .attach output.surf buf,
     .damage_buffer output.surf ((output.last_x - 50) * scale)
       ((output.last_y - 50) * scale) (100 * scale) (100 * scale)]
  let calls2 : List call :=
    if output.last_x == 0 && output.last_y == 0 then
      [.damage_buffer output.surf 0 0 (width * scale) (height * scale)]
    else []
  if s.current_output == some p then
    ({ output1 with last_x := s.cursor_x, last_y := s.cursor_y,
                    rendered_without_cursor := false },
      calls1 ++ calls2 ++
        (draw_circle b.width b.height (s.cursor_x * scale) (s.cursor_y * scale)
          (40 * scale)).map (call.fill_rectangle buf) ++
        [.damage_buffer output.surf ((s.cursor_x - 50) * scale)
          ((s.cursor_y - 50) * scale) (100 * scale) (100 * scale)])
  else
    ({ output1 with rendered_without_cursor := true }, calls1 ++ calls2)

/-- The function `render(output)` with `output = p`, `time(NULL) = now` and
`alloc_ok` for the buffer creation inside `shm_get_buffer`. -/
def render (s : state) (now : Int) (alloc_ok : Bool) (p : Nat) : Option state :=
  match s.mem p with
  | none => none
  | some output =>
    if !output.frame_done then
      some { s with mem := Function.update s.mem p (some { output with wants_render := true }) }
    else if render_skips s p output then
      some s
    else
      match shm_get_buffer s.shm now alloc_ok (output.render_width * output.scale)
          (output.render_height * output.scale) p with
      | none => none
      | some (none, shm1) => some { s with shm := shm1 }
      | some (some buf, shm1) =>
        match shm1.heap buf with
        | none => none
        | some b =>
          some { s with
            mem := Function.update s.mem p (some (render_paint s p output buf b).1)
            shm := shm1
            callbacks := s.callbacks ++ [p]
            calls := s.calls ++ (render_paint s p output buf b).2 ++
              [.frame output.surf p, .commit output.surf] }

/-- The function `frame_done_callback(data = p, callback, time)`. -/
def frame_done_callback (s : state) (now : Int) (alloc_ok : Bool) (p : Nat) : Option state :=
  match s.mem p with
  | none => none
  | some output =>
    if output.wants_render then
      render { s with
        mem := Function.update s.mem p
          (some { output with frame_done := true, wants_render := false })
        callbacks := s.callbacks.erase p } now alloc_ok p
    else
      some { s with
        mem := Function.update s.mem p (some { output with frame_done := true })
        callbacks := s.callbacks.erase p }

/-- The function `layer_surface_configure(data = p, surface, serial, w, h)`; `w`
and `h` are `uint32_t` values, taken below 2^31. -/
def layer_surface_configure (s : state) (now : Int) (alloc_ok : Bool)
    (p surface serial w h : Nat) : Option state :=
  match s.mem p with
  | none => none
  | some output =>
    if output.configured && output.render_width == (w : Int) &&
        output.render_height == (h : Int) then
      some { s with calls := s.calls ++ [.ack_configure surface serial, .commit output.surf] }
    else
      render { s with
        mem := Function.update s.mem p
          (some { output with render_width := (w : Int), render_height := (h : Int),
                              configured := true })
        calls := s.calls ++ [.ack_configure surface serial] } now alloc_ok p

/-- The calls of `output_layer_destroy` on an output object. -/
def output_layer_destroy_calls (o : output) : List call :=
  (match o.layer with
    | some l => [call.layer_surface_destroy l]
    | none => []) ++
  (match o.surf with
    | some f => [call.surface_destroy f]
    | none => [])

/-- The function `layer_surface_closed(data = p, surface)`: `output_layer_destroy`
if `p` is an item of `outputs`. -/
def layer_surface_closed (s : state) (p : Nat) : Option state :=
  if p ∈ s.outputs then
    match s.mem p with
    | none => none
    | some o =>
      some { s with
        mem := Function.update s.mem p
          (some { o with layer := none, surf := none, configured := false })
        calls := s.calls ++ output_layer_destroy_calls o }
  else some s

/-- The function `output_scale(data = p, wl_output, factor)`. -/
def output_scale (s : state) (now : Int) (alloc_ok : Bool) (p : Nat) (factor : Int) :
    Option state :=
  match s.mem p with
  | none => none
  | some output =>
    if output.configured then
      render { s with mem := Function.update s.mem p (some { output with scale := factor }) }
        now alloc_ok p
    else
      some { s with mem := Function.update s.mem p (some { output with scale := factor }) }

/-- The loop `tll_foreach(outputs, it) render(&it->item)` over the remaining
nodes. -/
def render_all (now : Int) (alloc_ok : Nat → Bool) : List Nat → state → Option state
  | [], s => some s
  | p :: rest, s =>
    match render s now (alloc_ok p) p with
    | none => none
    | some s1 => render_all now alloc_ok rest s1

/-- The function `pointer_motion`, with the two coordinates already converted by
`wl_fixed_to_int`. -/
def pointer_motion (s : state) (now : Int) (alloc_ok : Nat → Bool) (x y : Int) :
    Option state :=
  render_all now alloc_ok s.outputs { s with cursor_x := x, cursor_y := y }

/-- The search loop of `pointer_enter`: the first item of `outputs` whose `surf`
is `surface`, else the old value of `current_output`. -/
def enter_lookup (s : state) (surface : Option Nat) : Option Nat :=
  match s.outputs.find? (fun q =>
      match s.mem q with
      | some o => o.surf == surface
      | none => false) with
  | some q => some q
  | none => s.current_output

/-- The function `pointer_enter`; `render(current_output)` on a `NULL` pointer is a
fault. -/
def pointer_enter (s : state) (now : Int) (alloc_ok : Bool) (surface : Option Nat)
    (x y : Int) : Option state :=
  match enter_lookup s surface with
  | none => none
  | some p =>
    render { s with cursor_x := x, cursor_y := y, current_output := some p } now alloc_ok p

/-- The function `pointer_leave`. -/
def pointer_leave (s : state) : state :=
  { s with current_output := none }

/-- The `release` event of buffer `b` reaching `buffer_release`. -/
def release_event (s : state) (now : Int) (b : Nat) : Option state :=
  match buffer_release s.shm now b with
  | none => none
  | some shm1 => some { s with shm := shm1 }

/-- Events the display server sends to the program. -/
inductive event where
  | configure (p surface serial w h : Nat)
  | closed (p : Nat)
  | scale (p : Nat) (factor : Int)
  | motion (x y : Int)
  | enter (surface : Option Nat) (x y : Int)
  | leave
  | frame_done (p : Nat)
  | release (b : Nat)

/-- What the handlers of one event read from outside the program: the clock and
whether creating a buffer for a given cookie succeeds. -/
structure env where
  now : Int
  alloc_ok : Nat → Bool

/-- The server sends `done` only for a `wl_callback` that is live, and `release`
only for a buffer that is busy. -/
def deliverable (s : state) : event → Bool
  | .frame_done p => decide (p ∈ s.callbacks)
  | .release b =>
    match s.shm.heap b with
    | some buf => buf.busy
    | none => false
  | _ => true

/-- The handler an event is dispatched to. -/
def handle (s : state) (e : env) : event → Option state
  | .configure p surface serial w h =>
    layer_surface_configure s e.now (e.alloc_ok p) p surface serial w h
  | .closed p => layer_surface_closed s p
  | .scale p factor => output_scale s e.now (e.alloc_ok p) p factor
  | .motion x y => pointer_motion s e.now e.alloc_ok x y
  | .enter surface x y =>
    pointer_enter s e.now
      (match enter_lookup s surface with
        | some p => e.alloc_ok p
        | none => false) surface x y
  | .leave => some (pointer_leave s)
  | .frame_done p => frame_done_callback s e.now (e.alloc_ok p) p
  | .release b => release_event s e.now b

/-- A sequence of events, each with what its handlers read from outside; `none`
when an event cannot be delivered or a handler faults. -/
def run : state → List (env × event) → Option state
  | s, [] => some s
  | s, (e, ev) :: rest =>
    if deliverable s ev then
      match handle s e ev with
      | none => none
      | some s1 => run s1 rest
    else none

/-- Number of frames submitted for the output at `p` whose `done` has not arrived:
the live callbacks bound to `p`. -/
def outstanding (s : state) (p : Nat) : Nat := s.callbacks.count p

/-- A call is a frame callback request whose listener data is `p`. -/
def is_frame (p : Nat) : call → Bool
  | .frame _ d => d == p
  | _ => false

/-- Number of frames `render` has submitted for the output at `p`: the frame
callbacks requested with `data = p`. -/
def submitted (s : state) (p : Nat) : Nat :=
  s.calls.countP (is_frame p)

/-- Frame pacing invariant on the live callbacks and the output objects: no
callback is bound to `p`, or exactly one is and the output at `p` has
`frame_done = false`. -/
def frame_inv (callbacks : List Nat) (mem : Nat → Option output) : Prop :=
  ∀ p, callbacks.count p = 0 ∨
    (callbacks.count p = 1 ∧ ∃ o, mem p = some o ∧ o.frame_done = false)

/-- An output at `r` that waits for its frame acknowledgement in `mem` still does
in `mem1`. -/
def keeps_pending (mem mem1 : Nat → Option output) (r : Nat) : Prop :=
  ∀ o, mem r = some o → o.frame_done = false → ∃ o1, mem1 r = some o1 ∧ o1.frame_done = false

/-- One output, found by `handle_global` at address 10 with `wl_name` 1, surface 1
and layer surface 2, at program start. -/
def one_output : state :=
  state_init [10] (fun p => if p = 10 then some (new_output 1 (some 1) (some 2)) else none)

/-- An environment at time `now` in which every buffer creation succeeds. -/
def env_ok (now : Int) : env := ⟨now, fun _ => true⟩

/-- The state `s` with `wants_render` set on the output object `o` at `p`. -/
def with_pending (s : state) (p : Nat) (o : output) : state :=
  { s with mem := Function.update s.mem p (some { o with wants_render := true }) }

/-- The state `s` after the frame of the output object `o` at `p` is acknowledged
and its pending request is taken: `frame_done` true, `wants_render` false, one
callback bound to `p` destroyed. -/
def acked (s : state) (p : Nat) (o : output) : state :=
  { s with
    mem := Function.update s.mem p (some { o with frame_done := true, wants_render := false })
    callbacks := s.callbacks.erase p }

/-- An environment at time `now` in which no buffer can be created. -/
def env_fail (now : Int) : env := ⟨now, fun _ => false⟩

/-- The render size, the flags and the last drawn position of the output at `p`. -/
def output_view (s : state) (p : Nat) :
    Option (Bool × Int × Int × Bool × Bool × Bool × Int × Int) :=
  (s.mem p).map (fun o => (o.configured, o.render_width, o.render_height, o.frame_done,
    o.wants_render, o.rendered_without_cursor, o.last_x, o.last_y))

/-- The state a sequence of events leads to (the start state when the sequence
cannot happen or faults). -/
def after (s0 : state) (evs : List (env × event)) : state :=
  (run s0 evs).getD s0

/-- The output object at `p` (a blank one when there is none). -/
def output_at (s : state) (p : Nat) : output :=
  (s.mem p).getD (new_output 0 none none)

/-- The active output, acknowledged, with a frame outstanding: `one_output` after
scale 1, configure 800x600, its acknowledgement and a pointer enter. -/
def active_waiting : state :=
  after one_output [(env_ok 0, .scale 10 1), (env_ok 0, .configure 10 2 1 800 600),
    (env_ok 0, .frame_done 10), (env_ok 0, .enter (some 1) 100 100)]

/-- An output configured at 800x600 while no buffer could be created. -/
def configured_no_buffer : state :=
  after one_output [(env_fail 0, .scale 10 1), (env_fail 0, .configure 10 2 1 800 600)]

/-- An inactive output drawn without the indicator, its frame acknowledged:
`one_output` after scale 1, configure 800x600 and the acknowledgement. -/
def drawn_idle : state :=
  after one_output [(env_ok 0, .scale 10 1), (env_ok 0, .configure 10 2 1 800 600),
    (env_ok 0, .frame_done 10)]

/-- An output whose layer surface was closed while its frame is outstanding. -/
def closed_waiting : state :=
  after one_output [(env_ok 0, .scale 10 1), (env_ok 0, .configure 10 2 1 800 600),
    (env_ok 0, .closed 10)]

/-- The active output, every frame acknowledged, whose layer surface was closed. -/
def closed_active : state :=
  after one_output [(env_ok 0, .scale 10 1), (env_ok 0, .configure 10 2 1 800 600),
    (env_ok 0, .frame_done 10), (env_ok 0, .enter (some 1) 100 100),
    (env_ok 0, .frame_done 10), (env_ok 0, .closed 10)]

/-- The pool a sequence of calls leads to (the empty pool when the sequence cannot
happen or faults). -/
def shm_after (ops : List shm_op) : shm_state :=
  (shm_run shm_init ops).getD shm_init

/-- Two idle buffers of one cookie, 800x600 at 0 and 1024x768 at 1, both released
at time 1. -/
def pool_two_sizes : shm_state :=
  shm_after [.get 0 true 800 600 7, .get 0 true 1024 768 7, .release 1 0, .release 1 1]

/-- Two buffers of one key: buffer 1 idle in the queue, buffer 0 handed out again
and busy. -/
def pool_twin : shm_state :=
  shm_after [.get 0 true 800 600 7, .get 0 true 800 600 7, .release 0 0, .release 0 1,
    .get 0 true 800 600 7]

/-- The buffers attached so far to the surface `surf`, in order. -/
def attached_to (s : state) (surf : Option Nat) : List Nat :=
  s.calls.filterMap (fun c =>
    match c with
    | .attach f b => if f = surf then some b else none
    | _ => none)

/-- The surfaces committed so far, in order. -/
def commits (s : state) : List (Option Nat) :=
  s.calls.filterMap (fun c =>
    match c with
    | .commit f => some f
    | _ => none)

/-- An event is the frame acknowledgement of the output at `p`. -/
def is_ack (p : Nat) : event → Bool
  | .frame_done q => q == p
  | _ => false

/-- Number of frame acknowledgements for the output at `p` in a sequence of
events. -/
def acks (evs : List (env × event)) (p : Nat) : Nat :=
  evs.countP (fun e => is_ack p e.2)

/-- An output whose second frame is outstanding: `one_output` after scale 1,
configure 800x600, a pointer enter and a motion during the first frame, and the
acknowledgement of the first frame. -/
def busy_again : state :=
  after one_output [(env_ok 0, .scale 10 1), (env_ok 0, .configure 10 2 1 800 600),
    (env_ok 0, .enter (some 1) 100 100), (env_ok 0, .motion 120 100),
    (env_ok 1, .frame_done 10)]

/-- The test of `draw_circle` on pixel `(i, j)`:
`dx * dx + dy * dy <= radius * radius`. -/
def in_disc (x y radius i j : Int) : Prop :=
  (i - x) * (i - x) + (j - y) * (j - y) ≤ radius * radius

/-- Loop invariant of the inner loop on row `j`: nothing found yet, or `start` and
`end` are columns that pass the test of the disc. -/
def row_disc (x y radius j : Int) (se : Int × Int) : Prop :=
  se = (-1, -1) ∨ (in_disc x y radius se.1 j ∧ in_disc x y radius se.2 j)

/-- Pixel `(i, j)` lies in a rectangle declared by a `wl_surface_damage_buffer`
call of the list on the surface `surf`. -/
def damage_covers (calls : List call) (surf : Option Nat) (i j : Int) : Prop :=
  ∃ x y w h, call.damage_buffer surf x y w h ∈ calls ∧
    x ≤ i ∧ i < x + w ∧ y ≤ j ∧ j < y + h

/-- Pixel `(i, j)` lies in the bounding box of the circle of radius `radius`
centred at `(cx, cy)`. -/
def in_box (cx cy radius i j : Int) : Prop :=
  cx - radius ≤ i ∧ i ≤ cx + radius ∧ cy - radius ≤ j ∧ j ≤ cy + radius

/-- The active output on a 300x300 surface at scale 1, drawn with the indicator at
(100, 100) and acknowledged. -/
def drawn_active : state :=
  after one_output [(env_ok 0, .scale 10 1), (env_ok 0, .configure 10 2 1 300 300),
    (env_ok 0, .frame_done 10), (env_ok 0, .enter (some 1) 100 100),
    (env_ok 0, .frame_done 10)]

/-- The state `drawn_active` with the cursor moved to (150, 100), as
`pointer_motion` sets it before it calls `render`. -/
def moved_active : state :=
  { drawn_active with cursor_x := 150, cursor_y := 100 }

/-- Two outputs found at program start: at address 10 (`wl_name` 1, surface 1,
layer surface 2) and at address 20 (`wl_name` 2, surface 3, layer surface 4). -/
def two_outputs : state :=
  state_init [10, 20] (fun p =>
    if p = 10 then some (new_output 1 (some 1) (some 2))
    else if p = 20 then some (new_output 2 (some 3) (some 4))
    else none)

/-- Both outputs configured at 800x600 and acknowledged; the pointer entered the
first, which was drawn with the indicator and acknowledged; the second was drawn
without the indicator. -/
def active_and_idle : state :=
  after two_outputs [(env_ok 0, .scale 10 1), (env_ok 0, .scale 20 1),
    (env_ok 0, .configure 10 2 1 800 600), (env_ok 0, .configure 20 4 1 800 600),
    (env_ok 0, .frame_done 10), (env_ok 0, .frame_done 20),
    (env_ok 0, .enter (some 1) 100 100), (env_ok 0, .frame_done 10)]

/-- The output objects `a` and `b` agree in every field but `wants_render`. -/
def same_but_wants_render (a b : output) : Prop :=
  { a with wants_render := b.wants_render } = b

/-- The state `active_and_idle` after a pointer motion to (120, 100). -/
def active_and_idle_moved : state :=
  after active_and_idle [(env_ok 1, .motion 120 100)]

/-- The function `handle_global_remove(data, registry, name)`: the first item of
`outputs` whose `wl_name` is `name` is destroyed by `output_destroy` (the calls of
`output_layer_destroy`; the release of the `wl_output` is not logged) and its
node is unlinked and freed by `tll_remove`.  `current_output` is left as it is. -/
def handle_global_remove (s : state) (name : Nat) : state :=
  match s.outputs.find? (fun q =>
      match s.mem q with
      | some o => o.wl_name == name
      | none => false) with
  | none => s
  | some q =>
    match s.mem q with
    | none => s
    | some o =>
      { s with
        outputs := s.outputs.erase q
        mem := Function.update s.mem q none
        calls := s.calls ++ output_layer_destroy_calls o }

/-- One output configured at 800x600 whose first frame is outstanding. -/
def frame_in_flight : state :=
  after one_output [(env_ok 0, .scale 10 1), (env_ok 0, .configure 10 2 1 800 600)]

/-- The state `frame_in_flight` after the global of the output (`wl_name` 1) was
removed. -/
def output_removed : state :=
  handle_global_remove frame_in_flight 1

/-- What a reading of the log of calls knows about the pixels: the buffers that
received a rectangle of the indicator since they were last filled whole, the
buffer attached last, and, for the output it follows, whether the buffer of its
last submitted frame held the indicator. -/
structure paint_scan where
  dirty : List Nat
  attached : Option Nat
  last : Option Bool

/-- One call read by the scan that follows the output at `p`.  `render` fills the
whole buffer with `composite_fill`, draws the indicator with `fill_rectangle`,
and requests the frame callback after it attached the buffer. -/
def scan_call (p : Nat) (st : paint_scan) : call → paint_scan
  | .composite_fill buf _ _ => { st with dirty := st.dirty.filter (fun b => b != buf) }
  | .fill_rectangle buf _ => { st with dirty := buf :: st.dirty }
  | .attach _ buf => { st with attached := some buf }
  | .frame _ d =>
    if d == p then
      { st with last := some (match st.attached with
          | some b => st.dirty.contains b
          | none => false) }
    else st
  | _ => st

/-- Whether the frame most recently submitted for the output at `p` was painted
with the indicator (`none` when no frame was submitted). -/
def last_frame_has_indicator (calls : List call) (p : Nat) : Option Bool :=
  (calls.foldl (scan_call p) ⟨[], none, none⟩).last

/-- Every output whose `rendered_without_cursor` is true had its last frame
painted without the indicator. -/
def flag_inv (calls : List call) (mem : Nat → Option output) : Prop :=
  ∀ p o, mem p = some o → o.rendered_without_cursor = true →
    last_frame_has_indicator calls p = some false

/-- A call that does not request a frame callback. -/
def not_frame : call → Bool
  | .frame _ _ => false
  | _ => true

/-! ### Facts about draw_circle -/

theorem draw_circle_col_inv (width height x y radius j : Int) (se : Int × Int) (i : Int)
    (h : row_inv width height j se) (hlt : se.2 < i) :
    row_inv width height j (draw_circle_col width height x y radius j se i) ∧
      (draw_circle_col width height x y radius j se i).2 ≤ i := by
  unfold draw_circle_col
  dsimp only
  by_cases hb : 0 ≤ i ∧ i < width ∧ 0 ≤ j ∧ j < height
  · by_cases hd : (i - x) * (i - x) + (j - y) * (j - y) ≤ radius * radius
    · rw [if_pos hb, if_pos hd]
      refine ⟨Or.inr ?_, le_refl _⟩
      rcases h with h | h
      · rw [h]; simp only []; omega
      · by_cases hs : se.1 < 0
        · omega
        · rw [if_neg hs]; simp only []; omega
    · rw [if_pos hb, if_neg hd]; exact ⟨h, le_of_lt hlt⟩
  · rw [if_neg hb]; exact ⟨h, le_of_lt hlt⟩

theorem foldl_col_inv (width height x y radius j : Int) (l : List Int) (se : Int × Int)
    (h : row_inv width height j se) (hs : l.Pairwise (· < ·)) (hlt : ∀ i ∈ l, se.2 < i) :
    row_inv width height j (l.foldl (draw_circle_col width height x y radius j) se) := by
  induction l generalizing se with
  | nil => exact h
  | cons i l ih =>
    have hc := draw_circle_col_inv width height x y radius j se i h
      (hlt i (List.mem_cons_self _ _))
    rw [List.pairwise_cons] at hs
    refine ih _ hc.1 hs.2 ?_
    intro k hk
    exact lt_of_le_of_lt hc.2 (hs.1 k hk)

theorem mem_int_range {lo hi j : Int} (h : j ∈ int_range lo hi) : lo ≤ j ∧ j ≤ hi := by
  unfold int_range at h
  rw [List.mem_map] at h
  obtain ⟨k, hk, rfl⟩ := h
  rw [List.mem_range] at hk
  omega

theorem int_range_pairwise (lo hi : Int) : (int_range lo hi).Pairwise (· < ·) := by
  unfold int_range
  rw [List.pairwise_map]
  refine List.Pairwise.imp ?_ (List.pairwise_lt_range _)
  intro a b hab
  omega

theorem draw_circle_row_inv (width height x y radius j : Int) :
    row_inv width height j (draw_circle_row width height x y radius j) := by
  unfold draw_circle_row
  have key : ∀ (l : List Int) (se : Int × Int), se = (-1, -1) → l.Pairwise (· < ·) →
      row_inv width height j (l.foldl (draw_circle_col width height x y radius j) se) := by
    intro l
    induction l with
    | nil => intro se hse _; exact Or.inl hse
    | cons i l ih =>
      intro se hse hs
      rw [List.pairwise_cons] at hs
      rw [List.foldl_cons]
      by_cases hi : se.2 < i
      · have hc := draw_circle_col_inv width height x y radius j se i (Or.inl hse) hi
        refine foldl_col_inv width height x y radius j l _ hc.1 hs.2 ?_
        intro k hk
        exact lt_of_le_of_lt hc.2 (hs.1 k hk)
      · have hcol : draw_circle_col width height x y radius j se i = se := by
          unfold draw_circle_col
          rw [hse] at hi
          simp only [] at hi
          rw [if_neg (by omega)]
        rw [hcol]
        exact ih se hse hs.2
  exact key _ _ rfl (int_range_pairwise _ _)

theorem int16_of_fits {v : Int} (h0 : 0 ≤ v) (h1 : v ≤ 32767) : int16 v = v := by
  unfold int16; omega

theorem uint16_of_fits {v : Int} (h0 : 0 ≤ v) (h1 : v ≤ 65535) : uint16 v = v := by
  unfold uint16; omega

/-- C7: with an image that fits the 16-bit rectangle fields, every rectangle
`draw_circle` fills is the one of a row `j` of the loop that is a row of the
image, `(start, j, end - start, 1)` with the 16-bit conversions exact, and it
lies inside the image: `0 ≤ start`, `start + (end - start) ≤ width`. -/
theorem draw_circle_rectangles_inside (width height x y radius : Int)
    (hw : width ≤ 32767) (hh : height ≤ 32767) (r : pixman_rectangle16)
    (hr : r ∈ draw_circle width height x y radius) :
    ∃ j, y - radius ≤ j ∧ j ≤ y + radius ∧ 0 ≤ j ∧ j < height ∧
      r = ⟨(draw_circle_row width height x y radius j).1, j,
            (draw_circle_row width height x y radius j).2 -
              (draw_circle_row width height x y radius j).1, 1⟩ ∧
      0 ≤ r.x ∧ 0 ≤ r.width ∧ r.x + r.width ≤ width ∧
      0 ≤ r.y ∧ r.y < height ∧ r.height = 1 := by
  unfold draw_circle at hr
  rw [List.mem_filterMap] at hr
  obtain ⟨j, hj, hrect⟩ := hr
  have hjr := mem_int_range hj
  have hinv := draw_circle_row_inv width height x y radius j
  unfold draw_circle_rect at hrect
  by_cases hpos : (draw_circle_row width height x y radius j).2 > 0
  · rw [if_pos hpos] at hrect
    rcases hinv with hinv | ⟨h1, h2, h3, h4, h5⟩
    · rw [hinv] at hpos; simp at hpos
    · have e1 := int16_of_fits h1 (by omega)
      have e2 := int16_of_fits h4 (by omega)
      have e3 : uint16 ((draw_circle_row width height x y radius j).2 -
          (draw_circle_row width height x y radius j).1) = _ :=
        uint16_of_fits (by omega) (by omega)
      rw [e1, e2, e3] at hrect
      have hr := (Option.some.inj hrect).symm
      refine ⟨j, hjr.1, hjr.2, h4, h5, hr, ?_⟩
      rw [hr]
      refine ⟨h1, sub_nonneg.mpr h2, ?_, h4, h5, rfl⟩
      show (draw_circle_row width height x y radius j).1 +
        ((draw_circle_row width height x y radius j).2 -
          (draw_circle_row width height x y radius j).1) ≤ width
      omega
  · rw [if_neg hpos] at hrect
    exact absurd hrect (by simp)

/-- Witness of `draw_circle_rectangles_inside`: the middle row of a radius-2
circle at (5, 5) on a 10x10 image. -/
theorem draw_circle_rectangles_inside_witness :
    ∃ j, (5 : Int) - 2 ≤ j ∧ j ≤ 5 + 2 ∧ 0 ≤ j ∧ j < 10 ∧
      (⟨3, 5, 4, 1⟩ : pixman_rectangle16) =
        ⟨(draw_circle_row 10 10 5 5 2 j).1, j,
          (draw_circle_row 10 10 5 5 2 j).2 - (draw_circle_row 10 10 5 5 2 j).1, 1⟩ ∧
      0 ≤ (⟨3, 5, 4, 1⟩ : pixman_rectangle16).x ∧
      0 ≤ (⟨3, 5, 4, 1⟩ : pixman_rectangle16).width ∧
      (⟨3, 5, 4, 1⟩ : pixman_rectangle16).x + (⟨3, 5, 4, 1⟩ : pixman_rectangle16).width ≤ 10 ∧
      0 ≤ (⟨3, 5, 4, 1⟩ : pixman_rectangle16).y ∧
      (⟨3, 5, 4, 1⟩ : pixman_rectangle16).y < 10 ∧
      (⟨3, 5, 4, 1⟩ : pixman_rectangle16).height = 1 :=
  draw_circle_rectangles_inside 10 10 5 5 2 (by decide) (by decide) ⟨3, 5, 4, 1⟩ (by decide)

/-- C6 (the code at the failing inputs): on a 10x10 image the radius-2 circle at
(5, 5) gets the rectangles below; on row 5 the columns of the disc are 3..7 but
the rectangle `(3, 5, 4, 1)` stops before column 7, which no rectangle covers;
and the radius-0 circle at (0, 5), whose disc is the pixel (0, 5) of the image,
gets no rectangle at all. -/
theorem draw_circle_drops_last_column :
    draw_circle 10 10 5 5 2 =
        [⟨5, 3, 0, 1⟩, ⟨4, 4, 2, 1⟩, ⟨3, 5, 4, 1⟩, ⟨4, 6, 2, 1⟩, ⟨5, 7, 0, 1⟩] ∧
      ((0 : Int) ≤ 7 ∧ (7 : Int) < 10 ∧ ((7 : Int) - 5) * (7 - 5) + (5 - 5) * (5 - 5) ≤ 2 * 2) ∧
      (¬ ∃ r ∈ draw_circle 10 10 5 5 2, covers r 7 5) ∧
      draw_circle_row 10 10 0 5 0 5 = (0, 0) ∧
      draw_circle 10 10 0 5 0 = [] := by
  decide

/-! ### Facts about the pool -/

theorem buffer_destroy_ne (heap : Nat → Option buffer) {p x : Nat} (h : x ≠ p) :
    buffer_destroy heap p x = heap x := by
  unfold buffer_destroy; exact Function.update_noteq h _ _

theorem buffer_destroy_same (heap : Nat → Option buffer) (p : Nat) :
    buffer_destroy heap p p = none := by
  unfold buffer_destroy; exact Function.update_same _ _ _

theorem expired_destroy_ne (now : Int) (heap : Nat → Option buffer) {p x : Nat} (h : x ≠ p) :
    expired now (buffer_destroy heap p) x = expired now heap x := by
  unfold expired; rw [buffer_destroy_ne heap h]

/-- On a queue of distinct live pointers, `cleanup_old_buffers` runs without fault,
keeps, in order, the nodes whose buffer is not old and frees the others. -/
theorem cleanup_loop_spec (now : Int) (q : List Nat) (heap : Nat → Option buffer)
    (hnd : q.Nodup) (hlive : ∀ p ∈ q, heap p ≠ none) :
    cleanup_old_buffers_loop now q heap =
      some (q.filter (fun p => !expired now heap p),
        fun x => if x ∈ q ∧ expired now heap x = true then none else heap x) := by
  induction q generalizing heap with
  | nil => simp [cleanup_old_buffers_loop]
  | cons p rest ih =>
    rw [List.nodup_cons] at hnd
    obtain ⟨b, hb⟩ := Option.ne_none_iff_exists'.mp (hlive p (List.mem_cons_self _ _))
    have hne : ∀ x ∈ rest, x ≠ p := fun x hx hxp => hnd.1 (hxp ▸ hx)
    unfold cleanup_old_buffers_loop
    rw [hb]
    by_cases hold : is_old now b = true
    · have hexp : expired now heap p = true := by unfold expired; rw [hb]; exact hold
      simp only [hold, if_true]
      rw [ih (buffer_destroy heap p) hnd.2
        (fun x hx => by rw [buffer_destroy_ne heap (hne x hx)]; exact hlive x (List.mem_cons_of_mem _ hx))]
      congr 1
      refine Prod.ext ?_ ?_
      · simp only [List.filter_cons, hexp, Bool.not_true]
        simp only [Bool.false_eq_true, if_false]
        apply List.filter_congr
        intro x hx
        rw [expired_destroy_ne now heap (hne x hx)]
      · funext x
        by_cases hxp : x = p
        · subst hxp
          simp [hnd.1, hexp, buffer_destroy_same]
        · simp [hxp, expired_destroy_ne now heap hxp, buffer_destroy_ne heap hxp]
    · have hexp : expired now heap p = false := by
        unfold expired; rw [hb]; simpa using hold
      simp only [hold]
      rw [ih heap hnd.2 (fun x hx => hlive x (List.mem_cons_of_mem _ hx))]
      simp only [Bool.false_eq_true, if_false]
      congr 1
      refine Prod.ext ?_ ?_
      · simp [List.filter_cons, hexp]
      · funext x
        by_cases hxp : x = p
        · subst hxp
          simp [hnd.1, hexp]
        · simp [hxp]

/-- The reuse loop on a queue of live pointers none of which is accepted. -/
theorem find_reusable_none (heap : Nat → Option buffer) (width height : Int) (cookie : Nat)
    (q : List Nat) (hlive : ∀ p ∈ q, heap p ≠ none)
    (hno : ∀ p ∈ q, reusable heap width height cookie p = false) :
    find_reusable heap width height cookie q = some none := by
  induction q with
  | nil => rfl
  | cons p rest ih =>
    obtain ⟨b, hb⟩ := Option.ne_none_iff_exists'.mp (hlive p (List.mem_cons_self _ _))
    have hp := hno p (List.mem_cons_self _ _)
    unfold reusable at hp
    rw [hb] at hp
    have hp1 : is_match width height cookie b = false := hp
    unfold find_reusable
    rw [hb]
    simp only [hp1, Bool.false_eq_true, if_false]
    rw [ih (fun x hx => hlive x (List.mem_cons_of_mem _ hx))
      (fun x hx => hno x (List.mem_cons_of_mem _ hx))]

/-- The reuse loop on a queue of live pointers returns the first accepted one and
unlinks its node. -/
theorem find_reusable_first (heap : Nat → Option buffer) (width height : Int) (cookie : Nat)
    (l1 : List Nat) (p : Nat) (l2 : List Nat) (hlive : ∀ x ∈ l1, heap x ≠ none)
    (hno : ∀ x ∈ l1, reusable heap width height cookie x = false)
    (hp : reusable heap width height cookie p = true) :
    find_reusable heap width height cookie (l1 ++ p :: l2) = some (some (p, l1 ++ l2)) := by
  induction l1 with
  | nil =>
    unfold reusable at hp
    cases hb : heap p with
    | none => rw [hb] at hp; simp at hp
    | some b =>
      rw [hb] at hp
      have hp1 : is_match width height cookie b = true := hp
      simp only [List.nil_append]
      unfold find_reusable
      rw [hb]
      simp only [hp1, if_true]
  | cons a l1 ih =>
    obtain ⟨b, hb⟩ := Option.ne_none_iff_exists'.mp (hlive a (List.mem_cons_self _ _))
    have ha := hno a (List.mem_cons_self _ _)
    unfold reusable at ha
    rw [hb] at ha
    have ha1 : is_match width height cookie b = false := ha
    simp only [List.cons_append]
    unfold find_reusable
    rw [hb]
    simp only [ha1, Bool.false_eq_true, if_false]
    rw [ih (fun x hx => hlive x (List.mem_cons_of_mem _ hx))
      (fun x hx => hno x (List.mem_cons_of_mem _ hx))]

/-- A queue either has no accepted pointer or splits at its first accepted one. -/
theorem split_first_reusable (heap : Nat → Option buffer) (width height : Int) (cookie : Nat)
    (q : List Nat) :
    (∀ p ∈ q, reusable heap width height cookie p = false) ∨
    ∃ l1 p l2, q = l1 ++ p :: l2 ∧ (∀ x ∈ l1, reusable heap width height cookie x = false) ∧
      reusable heap width height cookie p = true := by
  induction q with
  | nil => left; intro p hp; cases hp
  | cons a q ih =>
    by_cases ha : reusable heap width height cookie a = true
    · right; exact ⟨[], a, q, rfl, fun x hx => absurd hx (List.not_mem_nil x), ha⟩
    · rcases ih with h | ⟨l1, p, l2, hq, hno, hp⟩
      · left
        intro x hx
        rcases List.mem_cons.mp hx with rfl | hx
        · simpa using ha
        · exact h x hx
      · right
        refine ⟨a :: l1, p, l2, by rw [hq]; rfl, ?_, hp⟩
        intro x hx
        rcases List.mem_cons.mp hx with rfl | hx
        · simpa using ha
        · exact hno x hx

theorem cleanup_old_buffers_eq (s : shm_state) (now : Int) (hnd : s.buffer_queue.Nodup)
    (hlive : ∀ p ∈ s.buffer_queue, s.heap p ≠ none) :
    cleanup_old_buffers s now = some ⟨cleaned_heap now s, kept_queue now s, s.next⟩ := by
  unfold cleanup_old_buffers
  rw [cleanup_loop_spec now s.buffer_queue s.heap hnd hlive]
  rfl

theorem mem_kept_queue {now : Int} {s : shm_state} {x : Nat} :
    x ∈ kept_queue now s ↔ x ∈ s.buffer_queue ∧ expired now s.heap x = false := by
  unfold kept_queue
  rw [List.mem_filter]
  simp

theorem cleaned_heap_of_not_expired {now : Int} {s : shm_state} {x : Nat}
    (h : expired now s.heap x = false) : cleaned_heap now s x = s.heap x := by
  unfold cleaned_heap
  rw [if_neg]
  intro hc
  rw [h] at hc
  exact Bool.false_ne_true hc.2

theorem cleaned_heap_of_not_mem {now : Int} {s : shm_state} {x : Nat}
    (h : x ∉ s.buffer_queue) : cleaned_heap now s x = s.heap x := by
  unfold cleaned_heap
  rw [if_neg]
  exact fun hc => h hc.1

theorem cleaned_heap_of_expired {now : Int} {s : shm_state} {x : Nat}
    (hx : x ∈ s.buffer_queue) (h : expired now s.heap x = true) :
    cleaned_heap now s x = none := by
  unfold cleaned_heap
  rw [if_pos ⟨hx, h⟩]

theorem cleaned_heap_none {now : Int} {s : shm_state} {x : Nat} (h : s.heap x = none) :
    cleaned_heap now s x = none := by
  unfold cleaned_heap
  split_ifs
  · rfl
  · exact h

theorem reusable_cleaned_of_kept {now : Int} {s : shm_state} {x : Nat} (width height : Int)
    (cookie : Nat) (h : x ∈ kept_queue now s) :
    reusable (cleaned_heap now s) width height cookie x =
      reusable s.heap width height cookie x := by
  unfold reusable
  rw [cleaned_heap_of_not_expired (mem_kept_queue.mp h).2]

/-- What `shm_get_buffer` does on a queue of distinct live pointers: it fails to
create, creates, or reuses the first accepted buffer left by the cleanup. -/
theorem shm_get_buffer_cases (s : shm_state) (now : Int) (alloc_ok : Bool)
    (width height : Int) (cookie : Nat) (hnd : s.buffer_queue.Nodup)
    (hlive : ∀ p ∈ s.buffer_queue, s.heap p ≠ none) :
    ((∀ x ∈ kept_queue now s, reusable s.heap width height cookie x = false) ∧
      alloc_ok = false ∧
      shm_get_buffer s now alloc_ok width height cookie =
        some (none, ⟨cleaned_heap now s, kept_queue now s, s.next⟩)) ∨
    ((∀ x ∈ kept_queue now s, reusable s.heap width height cookie x = false) ∧
      alloc_ok = true ∧
      shm_get_buffer s now alloc_ok width height cookie =
        some (some s.next,
          ⟨Function.update (cleaned_heap now s) s.next
              (some ⟨width, height, cookie, true, now⟩),
            kept_queue now s, s.next + 1⟩)) ∨
    (∃ l1 p l2 b, kept_queue now s = l1 ++ p :: l2 ∧
      (∀ x ∈ l1, reusable s.heap width height cookie x = false) ∧
      s.heap p = some b ∧ is_match width height cookie b = true ∧
      shm_get_buffer s now alloc_ok width height cookie =
        some (some p,
          ⟨Function.update (cleaned_heap now s) p
              (some { b with busy := true, cookie := cookie }),
            l1 ++ l2, s.next⟩)) := by
  have hkl : ∀ x ∈ kept_queue now s, cleaned_heap now s x ≠ none := by
    intro x hx
    rw [cleaned_heap_of_not_expired (mem_kept_queue.mp hx).2]
    exact hlive x (mem_kept_queue.mp hx).1
  unfold shm_get_buffer
  rw [cleanup_old_buffers_eq s now hnd hlive]
  simp only []
  rcases split_first_reusable (cleaned_heap now s) width height cookie (kept_queue now s) with
    hno | ⟨l1, p, l2, hq, hno, hp⟩
  · have hno1 : ∀ x ∈ kept_queue now s, reusable s.heap width height cookie x = false :=
      fun x hx => by rw [← reusable_cleaned_of_kept width height cookie hx]; exact hno x hx
    rw [find_reusable_none _ _ _ _ _ hkl hno]
    cases alloc_ok with
    | false => left; exact ⟨hno1, rfl, rfl⟩
    | true => right; left; exact ⟨hno1, rfl, rfl⟩
  · right; right
    have hpk : p ∈ kept_queue now s := by rw [hq]; simp
    have hl1 : ∀ x ∈ l1, x ∈ kept_queue now s := fun x hx => by rw [hq]; simp [hx]
    have hcp : cleaned_heap now s p = s.heap p :=
      cleaned_heap_of_not_expired (mem_kept_queue.mp hpk).2
    obtain ⟨b, hb⟩ := Option.ne_none_iff_exists'.mp (hlive p (mem_kept_queue.mp hpk).1)
    have hm : is_match width height cookie b = true := by
      unfold reusable at hp
      rw [hcp, hb] at hp
      exact hp
    refine ⟨l1, p, l2, b, hq, ?_, hb, hm, ?_⟩
    · intro x hx
      rw [← reusable_cleaned_of_kept width height cookie (hl1 x hx)]
      exact hno x hx
    · rw [hq, find_reusable_first _ _ _ _ l1 p l2 (fun x hx => hkl x (hl1 x hx)) hno hp]
      simp only [hcp, hb]

theorem pool_wf_live {s : shm_state} (h : pool_wf s) :
    ∀ p ∈ s.buffer_queue, s.heap p ≠ none := by
  intro p hp
  obtain ⟨b, hb, _⟩ := (h.2.1 p).mp hp
  rw [hb]; simp

theorem pool_wf_init : pool_wf shm_init := by
  refine ⟨List.nodup_nil, ?_, fun _ _ => rfl⟩
  intro p
  simp [shm_init]

theorem pool_wf_cleanup {s : shm_state} (now : Int) (h : pool_wf s) :
    pool_wf ⟨cleaned_heap now s, kept_queue now s, s.next⟩ := by
  refine ⟨List.Nodup.filter _ h.1, ?_, ?_⟩
  · intro x
    simp only []
    constructor
    · intro hx
      have hx2 := mem_kept_queue.mp hx
      rw [cleaned_heap_of_not_expired hx2.2]
      exact (h.2.1 x).mp hx2.1
    · rintro ⟨b, hb, hidle⟩
      by_cases hx : x ∈ s.buffer_queue ∧ expired now s.heap x = true
      · rw [cleaned_heap_of_expired hx.1 hx.2] at hb
        exact absurd hb (by simp)
      · have hb2 : s.heap x = some b := by
          unfold cleaned_heap at hb
          rw [if_neg hx] at hb
          exact hb
        have hq : x ∈ s.buffer_queue := (h.2.1 x).mpr ⟨b, hb2, hidle⟩
        refine mem_kept_queue.mpr ⟨hq, ?_⟩
        cases he : expired now s.heap x with
        | false => rfl
        | true => exact absurd ⟨hq, he⟩ hx
  · intro x hx
    exact cleaned_heap_none (h.2.2 x hx)

theorem pool_wf_alloc {heap : Nat → Option buffer} {q : List Nat} {n : Nat}
    (h : pool_wf ⟨heap, q, n⟩) (b : buffer) (hb : b.busy = true) :
    pool_wf ⟨Function.update heap n (some b), q, n + 1⟩ := by
  have hn : heap n = none := h.2.2 n (le_refl _)
  refine ⟨h.1, ?_, ?_⟩
  · intro x
    simp only []
    by_cases hx : x = n
    · subst hx
      rw [Function.update_same]
      constructor
      · intro hq
        obtain ⟨b0, hb0, _⟩ := (h.2.1 x).mp hq
        simp only [] at hb0
        rw [hn] at hb0
        exact absurd hb0 (by simp)
      · rintro ⟨b1, hb1, hidle⟩
        rw [← Option.some.inj hb1, hb] at hidle
        exact absurd hidle (by simp)
    · rw [Function.update_noteq hx]
      exact h.2.1 x
  · intro x hx
    simp only [] at hx ⊢
    have hxn : x ≠ n := by omega
    rw [Function.update_noteq hxn]
    exact h.2.2 x (by simp only []; omega)

theorem pool_wf_take {heap : Nat → Option buffer} {l1 l2 : List Nat} {p n : Nat}
    (h : pool_wf ⟨heap, l1 ++ p :: l2, n⟩) (b : buffer) (hb : b.busy = true) :
    pool_wf ⟨Function.update heap p (some b), l1 ++ l2, n⟩ := by
  have hnd : (l1 ++ p :: l2).Nodup := h.1
  have hsub : (l1 ++ l2).Sublist (l1 ++ p :: l2) :=
    List.Sublist.append_left (List.sublist_cons_self p l2) l1
  have hp : p ∉ l1 ++ l2 := by
    have := List.nodup_middle.mp hnd
    rw [List.nodup_cons] at this
    exact this.1
  have hplive : heap p ≠ none := pool_wf_live h p (by simp)
  refine ⟨hnd.sublist hsub, ?_, ?_⟩
  · intro x
    simp only []
    by_cases hx : x = p
    · subst hx
      rw [Function.update_same]
      constructor
      · intro hq; exact absurd hq hp
      · rintro ⟨b1, hb1, hidle⟩
        rw [← Option.some.inj hb1, hb] at hidle
        exact absurd hidle (by simp)
    · rw [Function.update_noteq hx]
      rw [← h.2.1 x]
      simp only [List.mem_append, List.mem_cons]
      tauto
  · intro x hx
    simp only [] at hx ⊢
    by_cases hxp : x = p
    · subst hxp
      exact absurd (h.2.2 x hx) hplive
    · rw [Function.update_noteq hxp]
      exact h.2.2 x hx

theorem pool_wf_release {s : shm_state} (h : pool_wf s) (now : Int) (p : Nat) (b : buffer)
    (hb : s.heap p = some b) (hbusy : b.busy = true) :
    pool_wf ⟨Function.update s.heap p (some { b with busy := false, last_used := now }),
      s.buffer_queue ++ [p], s.next⟩ := by
  have hp : p ∉ s.buffer_queue := by
    intro hq
    obtain ⟨b0, hb0, hidle⟩ := (h.2.1 p).mp hq
    rw [hb] at hb0
    rw [← Option.some.inj hb0, hbusy] at hidle
    exact absurd hidle (by simp)
  refine ⟨?_, ?_, ?_⟩
  · simp only []
    rw [List.nodup_append]
    refine ⟨h.1, List.nodup_singleton p, ?_⟩
    intro x hx hx2
    rw [List.mem_singleton] at hx2
    exact hp (hx2 ▸ hx)
  · intro x
    simp only [List.mem_append, List.mem_singleton]
    by_cases hx : x = p
    · subst hx
      rw [Function.update_same]
      simp
    · rw [Function.update_noteq hx, ← h.2.1 x]
      simp [hx]
  · intro x hx
    simp only [] at hx ⊢
    by_cases hxp : x = p
    · subst hxp
      rw [h.2.2 x hx] at hb
      exact absurd hb (by simp)
    · rw [Function.update_noteq hxp]
      exact h.2.2 x hx

/-- `shm_get_buffer` keeps the pool well formed. -/
theorem pool_wf_get {s s1 : shm_state} (h : pool_wf s) (now : Int) (alloc_ok : Bool)
    (width height : Int) (cookie : Nat) (r : Option Nat)
    (hget : shm_get_buffer s now alloc_ok width height cookie = some (r, s1)) :
    pool_wf s1 := by
  have hc := pool_wf_cleanup now h
  rcases shm_get_buffer_cases s now alloc_ok width height cookie h.1 (pool_wf_live h) with
    ⟨_, _, he⟩ | ⟨_, _, he⟩ | ⟨l1, p, l2, b, hq, _, _, _, he⟩
  · rw [he] at hget
    rw [← (Prod.mk.inj (Option.some.inj hget)).2]
    exact hc
  · rw [he] at hget
    rw [← (Prod.mk.inj (Option.some.inj hget)).2]
    exact pool_wf_alloc hc _ rfl
  · rw [he] at hget
    rw [← (Prod.mk.inj (Option.some.inj hget)).2]
    rw [hq] at hc
    exact pool_wf_take hc _ rfl

theorem pool_wf_step {s s1 : shm_state} (h : pool_wf s) (op : shm_op)
    (hstep : shm_step s op = some s1) : pool_wf s1 := by
  cases op with
  | get now alloc_ok width height cookie =>
    simp only [shm_step] at hstep
    cases hg : shm_get_buffer s now alloc_ok width height cookie with
    | none => rw [hg] at hstep; exact absurd hstep (by simp)
    | some rs =>
      rw [hg] at hstep
      obtain ⟨r, s2⟩ := rs
      have : s2 = s1 := Option.some.inj hstep
      rw [← this]
      exact pool_wf_get h now alloc_ok width height cookie r hg
  | release now p =>
    simp only [shm_step] at hstep
    cases hb : s.heap p with
    | none => rw [hb] at hstep; exact absurd hstep (by simp)
    | some b =>
      rw [hb] at hstep
      simp only [] at hstep
      by_cases hbusy : b.busy = true
      · rw [if_pos hbusy] at hstep
        unfold buffer_release at hstep
        rw [hb] at hstep
        rw [← Option.some.inj hstep]
        exact pool_wf_release h now p b hb hbusy
      · rw [if_neg hbusy] at hstep
        exact absurd hstep (by simp)

theorem pool_wf_run (ops : List shm_op) {s0 s : shm_state} (h : pool_wf s0)
    (hrun : shm_run s0 ops = some s) : pool_wf s := by
  induction ops generalizing s0 with
  | nil =>
    unfold shm_run at hrun
    rw [← Option.some.inj hrun]; exact h
  | cons op ops ih =>
    unfold shm_run at hrun
    cases hs : shm_step s0 op with
    | none => rw [hs] at hrun; exact absurd hrun (by simp)
    | some s1 =>
      rw [hs] at hrun
      exact ih (pool_wf_step h op hs) hrun

/-- In a well-formed pool `shm_get_buffer` returns without fault; a pointer it
returns did not name a busy buffer and names a busy one afterwards; a buffer that
is busy is not returned and is left as it is. -/
theorem shm_get_buffer_busy (s : shm_state) (h : pool_wf s) (now : Int) (alloc_ok : Bool)
    (width height : Int) (cookie : Nat) :
    ∃ r s1, shm_get_buffer s now alloc_ok width height cookie = some (r, s1) ∧
      (∀ p, r = some p → (∀ b, s.heap p = some b → b.busy = false) ∧
        p ∉ s1.buffer_queue ∧ ∃ b1, s1.heap p = some b1 ∧ b1.busy = true) ∧
      (∀ q b, s.heap q = some b → b.busy = true → r ≠ some q ∧ s1.heap q = some b) := by
  have hbusy_out : ∀ q b, s.heap q = some b → b.busy = true → q ∉ s.buffer_queue := by
    intro q b hq hb hmem
    obtain ⟨b0, hb0, hidle⟩ := (h.2.1 q).mp hmem
    rw [hq] at hb0
    rw [← Option.some.inj hb0, hb] at hidle
    exact absurd hidle (by simp)
  rcases shm_get_buffer_cases s now alloc_ok width height cookie h.1 (pool_wf_live h) with
    ⟨_, _, he⟩ | ⟨_, _, he⟩ | ⟨l1, p, l2, b, hq, _, hpb, hm, he⟩
  · refine ⟨_, _, he, ?_, ?_⟩
    · intro p hp; exact absurd hp (by simp)
    · intro q b hq hb
      exact ⟨by simp, by rw [← hq]; exact cleaned_heap_of_not_mem (hbusy_out q b hq hb)⟩
  · have hn : s.heap s.next = none := h.2.2 _ (le_refl _)
    refine ⟨_, _, he, ?_, ?_⟩
    · intro p hp
      have hpn : p = s.next := (Option.some.inj hp).symm
      subst hpn
      refine ⟨?_, ?_, ?_⟩
      · intro b hb; rw [hn] at hb; exact absurd hb (by simp)
      · intro hmem
        exact pool_wf_live h _ (mem_kept_queue.mp hmem).1 hn
      · exact ⟨_, Function.update_same _ _ _, rfl⟩
    · intro q b hq hb
      have hqn : q ≠ s.next := by
        intro hc; rw [hc, hn] at hq; exact absurd hq (by simp)
      refine ⟨fun hc => hqn (Option.some.inj hc).symm, ?_⟩
      simp only []
      rw [Function.update_noteq hqn, ← hq]
      exact cleaned_heap_of_not_mem (hbusy_out q b hq hb)
  · have hpk : p ∈ kept_queue now s := by rw [hq]; simp
    have hpq : p ∈ s.buffer_queue := (mem_kept_queue.mp hpk).1
    have hnd : (l1 ++ p :: l2).Nodup := by rw [← hq]; exact List.Nodup.filter _ h.1
    refine ⟨_, _, he, ?_, ?_⟩
    · intro p1 hp1
      have hpp : p1 = p := (Option.some.inj hp1).symm
      subst hpp
      refine ⟨?_, ?_, ?_⟩
      · intro b0 hb0
        obtain ⟨b1, hb1, hidle⟩ := (h.2.1 p1).mp hpq
        rw [hb0] at hb1
        rw [Option.some.inj hb1]; exact hidle
      · have := List.nodup_middle.mp hnd
        rw [List.nodup_cons] at this
        exact this.1
      · exact ⟨_, Function.update_same _ _ _, rfl⟩
    · intro q b0 hq0 hb0
      have hqp : q ≠ p := by
        intro hc; rw [hc] at hq0; exact hbusy_out p b0 hq0 hb0 hpq
      refine ⟨fun hc => hqp (Option.some.inj hc).symm, ?_⟩
      simp only []
      rw [Function.update_noteq hqp, ← hq0]
      exact cleaned_heap_of_not_mem (hbusy_out q b0 hq0 hb0)

/-- C3: in every pool reached from the empty pool by `shm_get_buffer` calls and
`release` events of busy buffers, a live buffer is in `buffer_queue` exactly when
it is not busy; `shm_get_buffer` returns without fault and what it returns did not
name a busy buffer, for any width, height and cookie, and is busy and out of the
queue afterwards; a busy buffer is not returned and stays busy through every
`shm_get_buffer` and through the release of any other buffer, so it is not handed
out again before its own release. -/
theorem pool_busy_never_returned (ops : List shm_op) (s : shm_state)
    (hrun : shm_run shm_init ops = some s) :
    (∀ p b, s.heap p = some b → (p ∈ s.buffer_queue ↔ b.busy = false)) ∧
    (∀ now alloc_ok width height cookie,
      ∃ r s1, shm_get_buffer s now alloc_ok width height cookie = some (r, s1) ∧
        (∀ p, r = some p → (∀ b, s.heap p = some b → b.busy = false) ∧
          p ∉ s1.buffer_queue ∧ ∃ b1, s1.heap p = some b1 ∧ b1.busy = true) ∧
        (∀ q b, s.heap q = some b → b.busy = true → r ≠ some q ∧ s1.heap q = some b)) ∧
    (∀ now p q b s1, s.heap q = some b → b.busy = true → q ≠ p →
      buffer_release s now p = some s1 → s1.heap q = some b) := by
  have hwf : pool_wf s := pool_wf_run ops pool_wf_init hrun
  refine ⟨?_, ?_, ?_⟩
  · intro p b hb
    rw [hwf.2.1 p]
    constructor
    · rintro ⟨b0, hb0, hidle⟩
      rw [hb] at hb0
      rw [Option.some.inj hb0]; exact hidle
    · intro hidle; exact ⟨b, hb, hidle⟩
  · intro now alloc_ok width height cookie
    exact shm_get_buffer_busy s hwf now alloc_ok width height cookie
  · intro now p q b s1 hq _ hqp hrel
    unfold buffer_release at hrel
    cases hp : s.heap p with
    | none => rw [hp] at hrel; exact absurd hrel (by simp)
    | some bp =>
      rw [hp] at hrel
      rw [← Option.some.inj hrel]
      simp only []
      rw [Function.update_noteq hqp, hq]

/-- Witness of `pool_busy_never_returned`: a buffer is created, released and
requested again. -/
theorem pool_busy_never_returned_witness :
    ∃ s, shm_run shm_init
        [.get 0 true 800 600 7, .release 1 0, .get 2 true 800 600 7] = some s ∧
      s.heap 0 = some ⟨800, 600, 7, true, 1⟩ ∧ s.buffer_queue = [] ∧
      ((∀ p b, s.heap p = some b → (p ∈ s.buffer_queue ↔ b.busy = false)) ∧
      (∀ now alloc_ok width height cookie,
        ∃ r s1, shm_get_buffer s now alloc_ok width height cookie = some (r, s1) ∧
          (∀ p, r = some p → (∀ b, s.heap p = some b → b.busy = false) ∧
            p ∉ s1.buffer_queue ∧ ∃ b1, s1.heap p = some b1 ∧ b1.busy = true) ∧
          (∀ q b, s.heap q = some b → b.busy = true → r ≠ some q ∧ s1.heap q = some b)) ∧
      (∀ now p q b s1, s.heap q = some b → b.busy = true → q ≠ p →
        buffer_release s now p = some s1 → s1.heap q = some b)) :=
  ⟨_, rfl, by decide, by decide,
    pool_busy_never_returned
      [.get 0 true 800 600 7, .release 1 0, .get 2 true 800 600 7] _ rfl⟩

theorem expired_eq_not_young {s : shm_state} (h : pool_wf s) (now : Int) {x : Nat}
    (hx : x ∈ s.buffer_queue) : (!expired now s.heap x) = young now s.heap x := by
  obtain ⟨b, hb, hidle⟩ := (h.2.1 x).mp hx
  unfold expired young is_old
  rw [hb]
  simp only [hidle, Bool.not_false, Bool.true_and]
  by_cases hc : now - b.last_used ≥ BUFFER_TIMEOUT_SEC
  · have : ¬ now - b.last_used < BUFFER_TIMEOUT_SEC := not_lt.mpr hc
    simp [hc, this]
  · have : now - b.last_used < BUFFER_TIMEOUT_SEC := not_le.mp hc
    simp [hc, this]

theorem filter_ne_middle {l1 l2 : List Nat} {p : Nat} (hnd : (l1 ++ p :: l2).Nodup) :
    (l1 ++ p :: l2).filter (fun x => decide (some p ≠ some x)) = l1 ++ l2 := by
  have hp : p ∉ l1 ++ l2 := by
    have := List.nodup_middle.mp hnd
    rw [List.nodup_cons] at this
    exact this.1
  rw [List.mem_append, not_or] at hp
  have hself : ∀ l : List Nat, p ∉ l → l.filter (fun x => decide (some p ≠ some x)) = l := by
    intro l hl
    rw [List.filter_eq_self]
    intro a ha
    have : p ≠ a := fun hc => hl (hc ▸ ha)
    simpa using this
  rw [List.filter_append, List.filter_cons, hself l1 hp.1, hself l2 hp.2]
  simp

/-- C5: in a well-formed pool, `shm_get_buffer` at time `now` returns without
fault; every buffer of the queue with `now - last_used ≥ 3` is unlinked and freed
and is not the buffer returned, whatever its key; every buffer of the queue with
`now - last_used < 3` that is not the one returned is still queued and untouched;
the new queue is the old one restricted, in its order, to the buffers with
`now - last_used < 3` other than the one returned. -/
theorem shm_get_buffer_evicts_old (s : shm_state) (hwf : pool_wf s) (now : Int)
    (alloc_ok : Bool) (width height : Int) (cookie : Nat) :
    ∃ r s1, shm_get_buffer s now alloc_ok width height cookie = some (r, s1) ∧
      (∀ p ∈ s.buffer_queue, ∀ b, s.heap p = some b → now - b.last_used ≥ 3 →
        p ∉ s1.buffer_queue ∧ s1.heap p = none ∧ r ≠ some p) ∧
      (∀ p ∈ s.buffer_queue, ∀ b, s.heap p = some b → now - b.last_used < 3 →
        r ≠ some p → p ∈ s1.buffer_queue ∧ s1.heap p = some b) ∧
      s1.buffer_queue =
        s.buffer_queue.filter (fun p => young now s.heap p && decide (r ≠ some p)) := by
  have hlive := pool_wf_live hwf
  have hold : ∀ p ∈ s.buffer_queue, ∀ b, s.heap p = some b → now - b.last_used ≥ 3 →
      expired now s.heap p = true := by
    intro p hp b hb hge
    obtain ⟨b0, hb0, hidle⟩ := (hwf.2.1 p).mp hp
    rw [hb] at hb0
    unfold expired is_old BUFFER_TIMEOUT_SEC
    rw [hb, Option.some.inj hb0]
    rw [Option.some.inj hb0] at hge
    simp [hidle, hge]
  have hyoung : ∀ p ∈ s.buffer_queue, ∀ b, s.heap p = some b → now - b.last_used < 3 →
      expired now s.heap p = false := by
    intro p hp b hb hlt
    unfold expired is_old BUFFER_TIMEOUT_SEC
    rw [hb]
    have : ¬ now - b.last_used ≥ 3 := not_le.mpr hlt
    simp [this]
  have hqueue : ∀ r : Option Nat,
      (kept_queue now s).filter (fun p => decide (r ≠ some p)) =
        s.buffer_queue.filter (fun p => young now s.heap p && decide (r ≠ some p)) := by
    intro r
    unfold kept_queue
    rw [List.filter_filter]
    apply List.filter_congr
    intro x hx
    rw [← expired_eq_not_young hwf now hx, Bool.and_comm]
  have hn : s.heap s.next = none := hwf.2.2 _ (le_refl _)
  rcases shm_get_buffer_cases s now alloc_ok width height cookie hwf.1 hlive with
    ⟨_, _, he⟩ | ⟨_, _, he⟩ | ⟨l1, p, l2, b, hq, _, hpb, hm, he⟩
  · refine ⟨_, _, he, ?_, ?_, ?_⟩
    · intro p hp b hb hge
      have hexp := hold p hp b hb hge
      refine ⟨fun hk => ?_, cleaned_heap_of_expired hp hexp, by simp⟩
      rw [(mem_kept_queue.mp hk).2] at hexp
      exact Bool.false_ne_true hexp
    · intro p hp b hb hlt _
      have hexp := hyoung p hp b hb hlt
      exact ⟨mem_kept_queue.mpr ⟨hp, hexp⟩, by rw [← hb]; exact cleaned_heap_of_not_expired hexp⟩
    · rw [← hqueue]
      simp
  · have hnq : ∀ p ∈ s.buffer_queue, p ≠ s.next := by
      intro p hp hc
      rw [hc] at hp
      exact hlive _ hp hn
    refine ⟨_, _, he, ?_, ?_, ?_⟩
    · intro p hp b hb hge
      have hexp := hold p hp b hb hge
      refine ⟨fun hk => ?_, ?_, fun hc => hnq p hp (Option.some.inj hc).symm⟩
      · rw [(mem_kept_queue.mp hk).2] at hexp
        exact Bool.false_ne_true hexp
      · simp only []
        rw [Function.update_noteq (hnq p hp)]
        exact cleaned_heap_of_expired hp hexp
    · intro p hp b hb hlt _
      have hexp := hyoung p hp b hb hlt
      refine ⟨mem_kept_queue.mpr ⟨hp, hexp⟩, ?_⟩
      simp only []
      rw [Function.update_noteq (hnq p hp), ← hb]
      exact cleaned_heap_of_not_expired hexp
    · rw [← hqueue]
      simp only []
      symm
      rw [List.filter_eq_self]
      intro a ha
      have : s.next ≠ a := fun hc => hnq a (mem_kept_queue.mp ha).1 hc.symm
      simpa using this
  · have hpk : p ∈ kept_queue now s := by rw [hq]; simp
    have hnd : (l1 ++ p :: l2).Nodup := by rw [← hq]; exact List.Nodup.filter _ hwf.1
    have hpnot : p ∉ l1 ++ l2 := by
      have := List.nodup_middle.mp hnd
      rw [List.nodup_cons] at this
      exact this.1
    refine ⟨_, _, he, ?_, ?_, ?_⟩
    · intro x hx b0 hb0 hge
      have hexp := hold x hx b0 hb0 hge
      have hxk : x ∉ kept_queue now s := by
        intro hk
        rw [(mem_kept_queue.mp hk).2] at hexp
        exact Bool.false_ne_true hexp
      have hxp : x ≠ p := fun hc => hxk (hc ▸ hpk)
      refine ⟨fun hk => hxk ?_, ?_, fun hc => hxp (Option.some.inj hc).symm⟩
      · rw [hq]
        simp only [List.mem_append, List.mem_cons] at hk ⊢
        tauto
      · simp only []
        rw [Function.update_noteq hxp]
        exact cleaned_heap_of_expired hx hexp
    · intro x hx b0 hb0 hlt hne
      have hexp := hyoung x hx b0 hb0 hlt
      have hxp : x ≠ p := fun hc => hne (by rw [hc])
      have hxk : x ∈ kept_queue now s := mem_kept_queue.mpr ⟨hx, hexp⟩
      refine ⟨?_, ?_⟩
      · rw [hq] at hxk
        simp only [List.mem_append, List.mem_cons] at hxk ⊢
        tauto
      · simp only []
        rw [Function.update_noteq hxp, ← hb0]
        exact cleaned_heap_of_not_expired hexp
    · rw [← hqueue, hq]
      exact (filter_ne_middle hnd).symm

/-- Witness of `shm_get_buffer_evicts_old`: two buffers with the same key were
released at times 10 and 12; at time 13 the first is 3 seconds old and is freed,
the second is returned. -/
theorem shm_get_buffer_evicts_old_witness :
    ∃ s, shm_run shm_init [.get 0 true 800 600 7, .get 0 true 800 600 7,
        .release 10 0, .release 12 1] = some s ∧ pool_wf s ∧
      s.buffer_queue = [0, 1] ∧
      (shm_get_buffer s 13 false 800 600 7).map Prod.fst = some (some 1) ∧
      ∃ r s1, shm_get_buffer s 13 false 800 600 7 = some (r, s1) ∧
        (∀ p ∈ s.buffer_queue, ∀ b, s.heap p = some b → 13 - b.last_used ≥ 3 →
          p ∉ s1.buffer_queue ∧ s1.heap p = none ∧ r ≠ some p) ∧
        (∀ p ∈ s.buffer_queue, ∀ b, s.heap p = some b → 13 - b.last_used < 3 →
          r ≠ some p → p ∈ s1.buffer_queue ∧ s1.heap p = some b) ∧
        s1.buffer_queue =
          s.buffer_queue.filter (fun p => young 13 s.heap p && decide (r ≠ some p)) :=
  ⟨_, rfl,
    pool_wf_run [.get 0 true 800 600 7, .get 0 true 800 600 7,
      .release 10 0, .release 12 1] pool_wf_init rfl,
    by decide, by decide,
    shm_get_buffer_evicts_old _
      (pool_wf_run [.get 0 true 800 600 7, .get 0 true 800 600 7,
        .release 10 0, .release 12 1] pool_wf_init rfl) 13 false 800 600 7⟩

/-- The first buffer of the queue with the requested key and `now - last_used < 3`
is the one `shm_get_buffer` returns. -/
theorem first_match_reused (s : shm_state) (hwf : pool_wf s) (now : Int)
    (alloc_ok : Bool) (width height : Int) (cookie : Nat) (l1 : List Nat) (p : Nat)
    (l2 : List Nat) (b : buffer) (hq : s.buffer_queue = l1 ++ p :: l2)
    (hb : s.heap p = some b)
    (hkey : b.width = width ∧ b.height = height ∧ b.cookie = cookie)
    (hnew : now - b.last_used < 3)
    (hfirst : ∀ x ∈ l1, ∀ bx, s.heap x = some bx →
      ¬ (bx.width = width ∧ bx.height = height ∧ bx.cookie = cookie ∧
        now - bx.last_used < 3)) :
    ∃ s1, shm_get_buffer s now alloc_ok width height cookie = some (some p, s1) ∧
      s1.buffer_queue = (l1 ++ l2).filter (fun x => young now s.heap x) ∧
      p ∉ s1.buffer_queue ∧
      s1.heap p = some { b with busy := true } ∧
      s1.next = s.next ∧ (∀ x, s.heap x = none → s1.heap x = none) := by
  have hlive := pool_wf_live hwf
  have hpq : p ∈ s.buffer_queue := by rw [hq]; simp
  have hidle : b.busy = false := by
    obtain ⟨b0, hb0, hi⟩ := (hwf.2.1 p).mp hpq
    rw [hb] at hb0
    rw [Option.some.inj hb0]; exact hi
  have hpexp : expired now s.heap p = false := by
    unfold expired is_old BUFFER_TIMEOUT_SEC
    rw [hb]
    have : ¬ now - b.last_used ≥ 3 := not_le.mpr hnew
    simp [this]
  have hkept : kept_queue now s =
      l1.filter (fun x => !expired now s.heap x) ++
        p :: l2.filter (fun x => !expired now s.heap x) := by
    unfold kept_queue
    rw [hq, List.filter_append, List.filter_cons]
    simp [hpexp]
  have hmem1 : ∀ x ∈ l1.filter (fun x => !expired now s.heap x), x ∈ kept_queue now s := by
    intro x hx; rw [hkept]; simp only [List.mem_append]; exact Or.inl hx
  have hpk : p ∈ kept_queue now s := by rw [hkept]; simp
  have hcp : cleaned_heap now s p = s.heap p := cleaned_heap_of_not_expired hpexp
  have hm : is_match width height cookie b = true := by
    unfold is_match
    simp [hidle, hkey.1, hkey.2.1, hkey.2.2]
  have hno : ∀ x ∈ l1.filter (fun x => !expired now s.heap x),
      reusable (cleaned_heap now s) width height cookie x = false := by
    intro x hx
    rw [reusable_cleaned_of_kept width height cookie (hmem1 x hx)]
    have hxk := mem_kept_queue.mp (hmem1 x hx)
    have hx1 : x ∈ l1 := (List.mem_filter.mp hx).1
    obtain ⟨bx, hbx, hix⟩ := (hwf.2.1 x).mp hxk.1
    have hxe := hxk.2
    unfold expired is_old BUFFER_TIMEOUT_SEC at hxe
    rw [hbx] at hxe
    simp only [hix, Bool.not_false, Bool.true_and, decide_eq_false_iff_not, not_le] at hxe
    have hnk := hfirst x hx1 bx hbx
    unfold reusable is_match
    rw [hbx]
    by_contra hc
    apply hnk
    simp only [Bool.not_eq_false, Bool.and_eq_true, beq_iff_eq] at hc
    exact ⟨hc.1.1.2, hc.1.2, hc.2, hxe⟩
  have hnd : (l1 ++ p :: l2).Nodup := by rw [← hq]; exact hwf.1
  have hpnot : p ∉ l1 ++ l2 := by
    have := List.nodup_middle.mp hnd
    rw [List.nodup_cons] at this
    exact this.1
  have hfilt : (l1 ++ l2).filter (fun x => young now s.heap x) =
      l1.filter (fun x => !expired now s.heap x) ++
        l2.filter (fun x => !expired now s.heap x) := by
    rw [← List.filter_append]
    apply List.filter_congr
    intro x hx
    refine (expired_eq_not_young hwf now ?_).symm
    rw [hq]
    simp only [List.mem_append, List.mem_cons] at hx ⊢
    tauto
  refine ⟨⟨Function.update (cleaned_heap now s) p
      (some { b with busy := true, cookie := cookie }),
    l1.filter (fun x => !expired now s.heap x) ++
      l2.filter (fun x => !expired now s.heap x), s.next⟩, ?_, ?_, ?_, ?_, rfl, ?_⟩
  · unfold shm_get_buffer
    rw [cleanup_old_buffers_eq s now hwf.1 hlive]
    simp only []
    rw [hkept, find_reusable_first _ _ _ _ _ p _ ?_ hno ?_]
    · simp only [hcp, hb]
    · intro x hx
      rw [cleaned_heap_of_not_expired (mem_kept_queue.mp (hmem1 x hx)).2]
      exact hlive x (mem_kept_queue.mp (hmem1 x hx)).1
    · unfold reusable
      rw [hcp, hb]
      exact hm
  · exact hfilt.symm
  · simp only []
    rw [← hfilt]
    intro hc
    exact hpnot (List.mem_filter.mp hc).1
  · simp only []
    rw [Function.update_same, ← hkey.2.2]
  · intro x hx
    simp only []
    have hxp : x ≠ p := by
      intro hc; rw [hc, hb] at hx; exact absurd hx (by simp)
    rw [Function.update_noteq hxp]
    exact cleaned_heap_none hx

/-! ### Facts about render -/

theorem render_paint_frame_done (s : state) (p : Nat) (o : output) (buf : Nat) (b : buffer) :
    (render_paint s p o buf b).1.frame_done = false := by
  unfold render_paint
  dsimp only
  split_ifs <;> rfl

theorem render_paint_wants_render (s : state) (p : Nat) (o : output) (buf : Nat) (b : buffer) :
    (render_paint s p o buf b).1.wants_render = o.wants_render := by
  unfold render_paint
  dsimp only
  split_ifs <;> rfl

/-- The four ways `render` returns. -/
theorem render_cases {s s1 : state} {now : Int} {alloc_ok : Bool} {p : Nat}
    (h : render s now alloc_ok p = some s1) :
    ∃ o, s.mem p = some o ∧
      ((o.frame_done = false ∧
          s1 = { s with mem := Function.update s.mem p (some { o with wants_render := true }) }) ∨
       (o.frame_done = true ∧ render_skips s p o = true ∧ s1 = s) ∨
       (o.frame_done = true ∧ render_skips s p o = false ∧
          ∃ shm1, shm_get_buffer s.shm now alloc_ok (o.render_width * o.scale)
              (o.render_height * o.scale) p = some (none, shm1) ∧
            s1 = { s with shm := shm1 }) ∨
       (o.frame_done = true ∧ render_skips s p o = false ∧
          ∃ buf shm1 b, shm_get_buffer s.shm now alloc_ok (o.render_width * o.scale)
              (o.render_height * o.scale) p = some (some buf, shm1) ∧
            shm1.heap buf = some b ∧
            s1 = { s with
              mem := Function.update s.mem p (some (render_paint s p o buf b).1)
              shm := shm1
              callbacks := s.callbacks ++ [p]
              calls := s.calls ++ (render_paint s p o buf b).2 ++
                [.frame o.surf p, .commit o.surf] })) := by
  unfold render at h
  cases ho : s.mem p with
  | none => rw [ho] at h; exact absurd h (by simp)
  | some o =>
    rw [ho] at h
    simp only [] at h
    refine ⟨o, rfl, ?_⟩
    cases hfd : o.frame_done with
    | false =>
      left
      simp only [hfd, Bool.not_false, if_true] at h
      exact ⟨rfl, (Option.some.inj h).symm⟩
    | true =>
      right
      simp only [hfd, Bool.not_true, Bool.false_eq_true, if_false] at h
      cases hsk : render_skips s p o with
      | true =>
        left
        simp only [hsk, if_true] at h
        exact ⟨rfl, rfl, (Option.some.inj h).symm⟩
      | false =>
        right
        simp only [hsk, Bool.false_eq_true, if_false] at h
        cases hg : shm_get_buffer s.shm now alloc_ok (o.render_width * o.scale)
            (o.render_height * o.scale) p with
        | none => rw [hg] at h; exact absurd h (by simp)
        | some rs =>
          obtain ⟨r, shm1⟩ := rs
          rw [hg] at h
          cases r with
          | none =>
            left
            exact ⟨rfl, rfl, shm1, rfl, (Option.some.inj h).symm⟩
          | some buf =>
            right
            have h2 : (match shm1.heap buf with
                | none => none
                | some b => some { s with
                    mem := Function.update s.mem p (some (render_paint s p o buf b).1)
                    shm := shm1
                    callbacks := s.callbacks ++ [p]
                    calls := s.calls ++ (render_paint s p o buf b).2 ++
                      [.frame o.surf p, .commit o.surf] }) = some s1 := h
            cases hb : shm1.heap buf with
            | none => rw [hb] at h2; exact absurd h2 (by simp)
            | some b =>
              rw [hb] at h2
              exact ⟨rfl, rfl, buf, shm1, b, rfl, hb, (Option.some.inj h2).symm⟩

theorem frame_inv_update {callbacks : List Nat} {mem : Nat → Option output} {p : Nat}
    {o o1 : output} (h : frame_inv callbacks mem) (ho : mem p = some o)
    (hfd : o.frame_done = false → o1.frame_done = false) :
    frame_inv callbacks (Function.update mem p (some o1)) := by
  intro q
  rcases h q with h0 | ⟨h1, oq, hoq, hfq⟩
  · exact Or.inl h0
  · right
    refine ⟨h1, ?_⟩
    by_cases hq : q = p
    · subst hq
      rw [Function.update_same]
      rw [ho] at hoq
      exact ⟨o1, rfl, hfd (by rw [Option.some.inj hoq]; exact hfq)⟩
    · rw [Function.update_noteq hq]
      exact ⟨oq, hoq, hfq⟩

theorem frame_inv_submit {callbacks : List Nat} {mem : Nat → Option output} {p : Nat}
    {o o1 : output} (h : frame_inv callbacks mem) (ho : mem p = some o)
    (hfd : o.frame_done = true) (hfd1 : o1.frame_done = false) :
    frame_inv (callbacks ++ [p]) (Function.update mem p (some o1)) := by
  intro q
  by_cases hq : q = p
  · subst hq
    right
    have h0 : callbacks.count q = 0 := by
      rcases h q with h0 | ⟨_, oq, hoq, hfq⟩
      · exact h0
      · rw [ho] at hoq
        rw [Option.some.inj hoq, hfq] at hfd
        exact absurd hfd (by simp)
    refine ⟨?_, o1, Function.update_same _ _ _, hfd1⟩
    rw [List.count_append, h0]
    simp
  · have hc : (callbacks ++ [p]).count q = callbacks.count q := by
      rw [List.count_append]
      have : [p].count q = 0 := by
        rw [List.count_eq_zero]
        intro hm
        exact hq (List.mem_singleton.mp hm)
      omega
    rw [hc, Function.update_noteq hq]
    exact h q

theorem frame_inv_ack {callbacks : List Nat} {mem : Nat → Option output} {p : Nat}
    (o1 : output) (h : frame_inv callbacks mem) :
    frame_inv (callbacks.erase p) (Function.update mem p (some o1)) := by
  intro q
  by_cases hq : q = p
  · subst hq
    left
    rw [List.count_erase_self]
    rcases h q with h0 | ⟨h1, _⟩
    · rw [h0]
    · rw [h1]
  · rw [List.count_erase_of_ne hq, Function.update_noteq hq]
    exact h q

theorem render_frame_inv {s s1 : state} {now : Int} {alloc_ok : Bool} {p : Nat}
    (h : render s now alloc_ok p = some s1) (hinv : frame_inv s.callbacks s.mem) :
    frame_inv s1.callbacks s1.mem := by
  obtain ⟨o, ho, hc⟩ := render_cases h
  rcases hc with ⟨_, rfl⟩ | ⟨_, _, rfl⟩ | ⟨_, _, shm1, _, rfl⟩ | ⟨hfd, _, buf, shm1, b, _, _, rfl⟩
  · exact frame_inv_update hinv ho (fun hf => hf)
  · exact hinv
  · exact hinv
  · exact frame_inv_submit hinv ho hfd (render_paint_frame_done s p o buf b)

theorem keeps_pending_refl (mem : Nat → Option output) (r : Nat) : keeps_pending mem mem r :=
  fun o ho hf => ⟨o, ho, hf⟩

theorem keeps_pending_trans {mem mem1 mem2 : Nat → Option output} {r : Nat}
    (h1 : keeps_pending mem mem1 r) (h2 : keeps_pending mem1 mem2 r) :
    keeps_pending mem mem2 r := by
  intro o ho hf
  obtain ⟨o1, ho1, hf1⟩ := h1 o ho hf
  exact h2 o1 ho1 hf1

theorem keeps_pending_update {mem : Nat → Option output} {q : Nat} {o o1 : output} (r : Nat)
    (ho : mem q = some o) (hfd : o.frame_done = false → o1.frame_done = false) :
    keeps_pending mem (Function.update mem q (some o1)) r := by
  intro o2 ho2 hf2
  by_cases hq : r = q
  · subst hq
    rw [ho] at ho2
    rw [Function.update_same]
    exact ⟨o1, rfl, hfd (by rw [Option.some.inj ho2]; exact hf2)⟩
  · rw [Function.update_noteq hq]
    exact ⟨o2, ho2, hf2⟩

theorem keeps_pending_update_ne {mem : Nat → Option output} {q r : Nat} (o1 : output)
    (hq : r ≠ q) : keeps_pending mem (Function.update mem q (some o1)) r := by
  intro o2 ho2 hf2
  rw [Function.update_noteq hq]
  exact ⟨o2, ho2, hf2⟩

theorem render_keeps_pending {s s1 : state} {now : Int} {alloc_ok : Bool} {p : Nat} (r : Nat)
    (h : render s now alloc_ok p = some s1) : keeps_pending s.mem s1.mem r := by
  obtain ⟨o, ho, hc⟩ := render_cases h
  rcases hc with ⟨_, rfl⟩ | ⟨_, _, rfl⟩ | ⟨_, _, shm1, _, rfl⟩ | ⟨hfd, _, buf, shm1, b, _, _, rfl⟩
  · exact keeps_pending_update r ho (fun hf => hf)
  · exact keeps_pending_refl _ _
  · exact keeps_pending_refl _ _
  · exact keeps_pending_update r ho (fun _ => render_paint_frame_done s p o buf b)

theorem render_all_frame_inv {now : Int} {alloc_ok : Nat → Bool} (l : List Nat) {s s1 : state}
    (h : render_all now alloc_ok l s = some s1) (hinv : frame_inv s.callbacks s.mem) :
    frame_inv s1.callbacks s1.mem := by
  induction l generalizing s with
  | nil =>
    unfold render_all at h
    rw [← Option.some.inj h]; exact hinv
  | cons p l ih =>
    unfold render_all at h
    cases hr : render s now (alloc_ok p) p with
    | none => rw [hr] at h; exact absurd h (by simp)
    | some s2 =>
      rw [hr] at h
      exact ih h (render_frame_inv hr hinv)

theorem render_all_keeps_pending {now : Int} {alloc_ok : Nat → Bool} (l : List Nat)
    {s s1 : state} (r : Nat) (h : render_all now alloc_ok l s = some s1) :
    keeps_pending s.mem s1.mem r := by
  induction l generalizing s with
  | nil =>
    unfold render_all at h
    rw [← Option.some.inj h]; exact keeps_pending_refl _ _
  | cons p l ih =>
    unfold render_all at h
    cases hr : render s now (alloc_ok p) p with
    | none => rw [hr] at h; exact absurd h (by simp)
    | some s2 =>
      rw [hr] at h
      exact keeps_pending_trans (render_keeps_pending r hr) (ih h)

/-- Every handler keeps the frame pacing invariant, and no handler other than the
frame callback of the output at `r` ends the wait of that output. -/
theorem handle_frame_inv {s s1 : state} (e : env) (ev : event)
    (hinv : frame_inv s.callbacks s.mem) (h : handle s e ev = some s1) :
    frame_inv s1.callbacks s1.mem ∧
      ∀ r, ev ≠ .frame_done r → keeps_pending s.mem s1.mem r := by
  cases ev with
  | configure p surface serial w hh =>
    simp only [handle, layer_surface_configure] at h
    cases ho : s.mem p with
    | none => rw [ho] at h; exact absurd h (by simp)
    | some o =>
      rw [ho] at h
      simp only [] at h
      split_ifs at h with hc
      · rw [← Option.some.inj h]
        exact ⟨hinv, fun r _ => keeps_pending_refl _ _⟩
      · refine ⟨render_frame_inv h (frame_inv_update hinv ho (fun hf => hf)), fun r _ => ?_⟩
        have k := render_keeps_pending r h
        refine keeps_pending_trans ?_ k
        exact keeps_pending_update r ho (fun hf => hf)
  | closed p =>
    simp only [handle, layer_surface_closed] at h
    split_ifs at h with hc
    · cases ho : s.mem p with
      | none => rw [ho] at h; exact absurd h (by simp)
      | some o =>
        rw [ho] at h
        rw [← Option.some.inj h]
        exact ⟨frame_inv_update hinv ho (fun hf => hf),
          fun r _ => keeps_pending_update r ho (fun hf => hf)⟩
    · rw [← Option.some.inj h]
      exact ⟨hinv, fun r _ => keeps_pending_refl _ _⟩
  | scale p factor =>
    simp only [handle, output_scale] at h
    cases ho : s.mem p with
    | none => rw [ho] at h; exact absurd h (by simp)
    | some o =>
      rw [ho] at h
      simp only [] at h
      split_ifs at h with hc
      · refine ⟨render_frame_inv h (frame_inv_update hinv ho (fun hf => hf)), fun r _ => ?_⟩
        have k := render_keeps_pending r h
        refine keeps_pending_trans ?_ k
        exact keeps_pending_update r ho (fun hf => hf)
      · rw [← Option.some.inj h]
        exact ⟨frame_inv_update hinv ho (fun hf => hf),
          fun r _ => keeps_pending_update r ho (fun hf => hf)⟩
  | motion x y =>
    simp only [handle, pointer_motion] at h
    refine ⟨render_all_frame_inv s.outputs h hinv, fun r _ => ?_⟩
    have k := render_all_keeps_pending s.outputs r h
    exact k
  | enter surface x y =>
    simp only [handle, pointer_enter] at h
    cases hl : enter_lookup s surface with
    | none => rw [hl] at h; exact absurd h (by simp)
    | some p =>
      rw [hl] at h
      dsimp only at h
      refine ⟨render_frame_inv h hinv, fun r _ => ?_⟩
      have k := render_keeps_pending r h
      exact k
  | leave =>
    simp only [handle, pointer_leave] at h
    rw [← Option.some.inj h]
    exact ⟨hinv, fun r _ => keeps_pending_refl _ _⟩
  | frame_done p =>
    simp only [handle, frame_done_callback] at h
    cases ho : s.mem p with
    | none => rw [ho] at h; exact absurd h (by simp)
    | some o =>
      rw [ho] at h
      simp only [] at h
      split_ifs at h with hc
      · refine ⟨render_frame_inv h (frame_inv_ack _ hinv), fun r hr => ?_⟩
        have hrp : r ≠ p := fun hc => hr (by rw [hc])
        have k := render_keeps_pending r h
        refine keeps_pending_trans ?_ k
        exact keeps_pending_update_ne _ hrp
      · rw [← Option.some.inj h]
        refine ⟨frame_inv_ack _ hinv, fun r hr => ?_⟩
        have hrp : r ≠ p := fun hc => hr (by rw [hc])
        exact keeps_pending_update_ne _ hrp
  | release b =>
    simp only [handle, release_event] at h
    cases hb : buffer_release s.shm e.now b with
    | none => rw [hb] at h; exact absurd h (by simp)
    | some shm1 =>
      rw [hb] at h
      rw [← Option.some.inj h]
      exact ⟨hinv, fun r _ => keeps_pending_refl _ _⟩

theorem run_frame_inv (evs : List (env × event)) {s0 s : state}
    (hinv : frame_inv s0.callbacks s0.mem) (h : run s0 evs = some s) :
    frame_inv s.callbacks s.mem := by
  induction evs generalizing s0 with
  | nil =>
    unfold run at h
    rw [← Option.some.inj h]; exact hinv
  | cons ev evs ih =>
    obtain ⟨e, ev⟩ := ev
    unfold run at h
    split_ifs at h with hd
    cases hh : handle s0 e ev with
    | none => rw [hh] at h; exact absurd h (by simp)
    | some s1 =>
      rw [hh] at h
      exact ih (handle_frame_inv e ev hinv hh).1 h

theorem frame_inv_nil (mem : Nat → Option output) : frame_inv [] mem :=
  fun _ => Or.inl rfl

theorem countP_fill_rectangle (q buf : Nat) (l : List pixman_rectangle16) :
    (l.map (call.fill_rectangle buf)).countP (is_frame q) = 0 := by
  rw [List.countP_eq_zero]
  intro c hc
  obtain ⟨r, _, rfl⟩ := List.mem_map.mp hc
  simp [is_frame]

theorem countP_render_paint (s : state) (p : Nat) (o : output) (buf : Nat) (b : buffer)
    (q : Nat) : (render_paint s p o buf b).2.countP (is_frame q) = 0 := by
  unfold render_paint
  dsimp only
  split_ifs <;>
    simp [List.countP_append, List.countP_cons, countP_fill_rectangle, is_frame]

/-- A call of `render` for the output at `p` leaves callbacks and log alone, or
submits one frame: then `frame_done` was true before and is false after. -/
theorem render_submission {s s1 : state} {now : Int} {alloc_ok : Bool} {p : Nat}
    (h : render s now alloc_ok p = some s1) :
    (s1.callbacks = s.callbacks ∧ s1.calls = s.calls) ∨
    (outstanding s1 p = outstanding s p + 1 ∧ submitted s1 p = submitted s p + 1 ∧
      (∃ o, s.mem p = some o ∧ o.frame_done = true) ∧
      ∃ o1, s1.mem p = some o1 ∧ o1.frame_done = false) := by
  obtain ⟨o, ho, hc⟩ := render_cases h
  rcases hc with ⟨_, rfl⟩ | ⟨_, _, rfl⟩ | ⟨_, _, shm1, _, rfl⟩ | ⟨hfd, _, buf, shm1, b, _, _, rfl⟩
  · exact Or.inl ⟨rfl, rfl⟩
  · exact Or.inl ⟨rfl, rfl⟩
  · exact Or.inl ⟨rfl, rfl⟩
  · right
    refine ⟨?_, ?_, ⟨o, ho, hfd⟩, ⟨_, Function.update_same _ _ _, render_paint_frame_done s p o buf b⟩⟩
    · unfold outstanding
      simp [List.count_append]
    · unfold submitted
      simp [List.countP_append, List.countP_cons, countP_render_paint, is_frame]

/-- A call of `render` adds as many callbacks bound to `q` as it requests frames
for `q`. -/
theorem render_balance {s s1 : state} {now : Int} {alloc_ok : Bool} {p : Nat}
    (h : render s now alloc_ok p = some s1) (q : Nat) :
    submitted s1 q + outstanding s q = submitted s q + outstanding s1 q := by
  obtain ⟨o, ho, hc⟩ := render_cases h
  rcases hc with ⟨_, rfl⟩ | ⟨_, _, rfl⟩ | ⟨_, _, shm1, _, rfl⟩ | ⟨hfd, _, buf, shm1, b, _, _, rfl⟩
  · rfl
  · rfl
  · rfl
  · unfold submitted outstanding
    simp only [List.countP_append, List.countP_cons, countP_render_paint, is_frame,
      List.count_append, List.countP_nil, List.count_cons, List.count_nil]
    by_cases hq : p = q
    · simp [hq]; omega
    · simp [hq]

theorem render_all_balance {now : Int} {alloc_ok : Nat → Bool} (l : List Nat) {s s1 : state}
    (h : render_all now alloc_ok l s = some s1) (q : Nat) :
    submitted s1 q + outstanding s q = submitted s q + outstanding s1 q := by
  induction l generalizing s with
  | nil =>
    unfold render_all at h
    rw [← Option.some.inj h]
  | cons p l ih =>
    unfold render_all at h
    cases hr : render s now (alloc_ok p) p with
    | none => rw [hr] at h; exact absurd h (by simp)
    | some s2 =>
      rw [hr] at h
      have h1 := render_balance hr q
      have h2 := ih h
      omega

/-- Every handler keeps, for each output, the number of frames requested minus the
number of live callbacks, except the frame callback of that output, which adds
one to it. -/
theorem handle_balance {s s1 : state} (e : env) (ev : event)
    (hd : deliverable s ev = true) (h : handle s e ev = some s1) (q : Nat) :
    submitted s1 q + outstanding s q =
      submitted s q + outstanding s1 q + acks [(e, ev)] q := by
  cases ev with
  | configure p surface serial w hh =>
    simp only [handle, layer_surface_configure] at h
    cases ho : s.mem p with
    | none => rw [ho] at h; exact absurd h (by simp)
    | some o =>
      rw [ho] at h
      simp only [] at h
      split_ifs at h with hc
      · rw [← Option.some.inj h]
        simp [submitted, outstanding, acks, is_ack, is_frame, List.countP_append, List.countP_cons]
      · have k := render_balance h q
        simp only [submitted, outstanding, List.countP_append, List.countP_cons, is_frame,
          List.countP_nil] at k
        simp only [submitted, outstanding, acks, is_ack, List.countP_cons, List.countP_nil]
        simp at k ⊢
        omega
  | closed p =>
    simp only [handle, layer_surface_closed] at h
    split_ifs at h with hc
    · cases ho : s.mem p with
      | none => rw [ho] at h; exact absurd h (by simp)
      | some o =>
        rw [ho] at h
        rw [← Option.some.inj h]
        have hz : (output_layer_destroy_calls o).countP (is_frame q) = 0 := by
          unfold output_layer_destroy_calls
          cases o.layer <;> cases o.surf <;> simp [is_frame, List.countP_cons]
        simp [submitted, outstanding, acks, is_ack, List.countP_append, hz]
    · rw [← Option.some.inj h]
      simp [acks, is_ack]
  | scale p factor =>
    simp only [handle, output_scale] at h
    cases ho : s.mem p with
    | none => rw [ho] at h; exact absurd h (by simp)
    | some o =>
      rw [ho] at h
      simp only [] at h
      split_ifs at h with hc
      · have k := render_balance h q
        simp only [submitted, outstanding] at k
        simp only [submitted, outstanding, acks, is_ack, List.countP_cons, List.countP_nil]
        simp at k ⊢
        omega
      · rw [← Option.some.inj h]
        simp [submitted, outstanding, acks, is_ack]
  | motion x y =>
    simp only [handle, pointer_motion] at h
    have k := render_all_balance s.outputs h q
    simp only [submitted, outstanding] at k
    simp only [submitted, outstanding, acks, is_ack, List.countP_cons, List.countP_nil]
    simp at k ⊢
    omega
  | enter surface x y =>
    simp only [handle, pointer_enter] at h
    cases hl : enter_lookup s surface with
    | none => rw [hl] at h; exact absurd h (by simp)
    | some p =>
      rw [hl] at h
      dsimp only at h
      have k := render_balance h q
      simp only [submitted, outstanding] at k
      simp only [submitted, outstanding, acks, is_ack, List.countP_cons, List.countP_nil]
      simp at k ⊢
      omega
  | leave =>
    simp only [handle, pointer_leave] at h
    rw [← Option.some.inj h]
    simp [submitted, outstanding, acks, is_ack]
  | frame_done p =>
    simp only [deliverable, decide_eq_true_eq] at hd
    have hpos : 0 < s.callbacks.count p := List.count_pos_iff.mpr hd
    have herase : (s.callbacks.erase p).count q + (if q = p then 1 else 0) =
        s.callbacks.count q := by
      by_cases hq : q = p
      · subst hq
        rw [List.count_erase_self, if_pos rfl]
        omega
      · rw [List.count_erase_of_ne hq, if_neg hq, Nat.add_zero]
    have hack : acks [(e, event.frame_done p)] q = if q = p then 1 else 0 := by
      unfold acks is_ack
      by_cases hq : q = p
      · subst hq; simp
      · have : p ≠ q := fun hc => hq hc.symm
        simp [hq, this]
    simp only [handle, frame_done_callback] at h
    cases ho : s.mem p with
    | none => rw [ho] at h; exact absurd h (by simp)
    | some o =>
      rw [ho] at h
      simp only [] at h
      rw [hack]
      split_ifs at h with hc
      · have k := render_balance h q
        simp only [submitted, outstanding] at k
        simp only [submitted, outstanding]
        omega
      · rw [← Option.some.inj h]
        simp only [submitted, outstanding]
        omega
  | release b =>
    simp only [handle, release_event] at h
    cases hb : buffer_release s.shm e.now b with
    | none => rw [hb] at h; exact absurd h (by simp)
    | some shm1 =>
      rw [hb] at h
      rw [← Option.some.inj h]
      simp [submitted, outstanding, acks, is_ack]

theorem acks_cons (e : env × event) (evs : List (env × event)) (q : Nat) :
    acks (e :: evs) q = acks [e] q + acks evs q := by
  unfold acks
  rw [List.countP_cons, List.countP_cons, List.countP_nil]
  omega

theorem run_balance (evs : List (env × event)) {s0 s : state} (h : run s0 evs = some s)
    (q : Nat) :
    submitted s q + outstanding s0 q = submitted s0 q + outstanding s q + acks evs q := by
  induction evs generalizing s0 with
  | nil =>
    unfold run at h
    rw [← Option.some.inj h]
    simp [acks]
  | cons ev evs ih =>
    obtain ⟨e, ev⟩ := ev
    unfold run at h
    split_ifs at h with hd
    cases hh : handle s0 e ev with
    | none => rw [hh] at h; exact absurd h (by simp)
    | some s1 =>
      rw [hh] at h
      have h1 := handle_balance e ev hd hh q
      have h2 := ih h
      rw [acks_cons]
      omega

/-- C1: from any start in which no output has more than one frame outstanding
(in particular from program start), after every sequence of configure, closed,
scale, pointer motion, enter, leave, frame-done and buffer-release events, where
frame-done is delivered only for a live callback, every output has at most one
frame outstanding, and none when its `frame_done` is true.  The frames
outstanding are the frames `render` submitted that were not acknowledged: the
submissions since the start equal the acknowledgements plus the change of the
outstanding count.  `render` submits only when `frame_done` is true and leaves
it false; only the frame callback of an output ends its wait. -/
theorem at_most_one_outstanding_frame (s0 : state) (evs : List (env × event)) (s : state)
    (h0 : frame_inv s0.callbacks s0.mem) (hrun : run s0 evs = some s) (p : Nat) :
    outstanding s p ≤ 1 ∧
    submitted s p + outstanding s0 p = submitted s0 p + outstanding s p + acks evs p ∧
    (∀ o, s.mem p = some o → o.frame_done = true → outstanding s p = 0) ∧
    (∀ now alloc_ok s1, render s now alloc_ok p = some s1 →
      (s1.callbacks = s.callbacks ∧ s1.calls = s.calls) ∨
      (outstanding s1 p = outstanding s p + 1 ∧ submitted s1 p = submitted s p + 1 ∧
        (∃ o, s.mem p = some o ∧ o.frame_done = true) ∧
        ∃ o1, s1.mem p = some o1 ∧ o1.frame_done = false)) ∧
    (∀ e ev s1, handle s e ev = some s1 → ev ≠ .frame_done p →
      keeps_pending s.mem s1.mem p) := by
  have hinv := run_frame_inv evs h0 hrun
  refine ⟨?_, run_balance evs hrun p, ?_, ?_, ?_⟩
  · unfold outstanding
    rcases hinv p with h | ⟨h, _⟩ <;> omega
  · intro o ho hfd
    unfold outstanding
    rcases hinv p with h | ⟨_, o1, ho1, hf1⟩
    · exact h
    · rw [ho] at ho1
      rw [Option.some.inj ho1, hf1] at hfd
      exact absurd hfd (by simp)
  · intro now alloc_ok s1 h
    exact render_submission h
  · intro e ev s1 h hne
    exact (handle_frame_inv e ev hinv h).2 p hne

/-- Witness of `at_most_one_outstanding_frame`: an output is configured, its frame
is submitted, the pointer enters and moves, the frame is acknowledged and the
pending request is rendered. -/
theorem at_most_one_outstanding_frame_witness :
    frame_inv one_output.callbacks one_output.mem ∧
    run one_output [(env_ok 0, .scale 10 1), (env_ok 0, .configure 10 2 1 800 600),
        (env_ok 0, .enter (some 1) 100 100), (env_ok 0, .motion 120 100),
        (env_ok 1, .frame_done 10)] = some busy_again ∧
    outstanding busy_again 10 = 1 ∧ submitted busy_again 10 = 2 ∧
    (outstanding busy_again 10 ≤ 1 ∧
      submitted busy_again 10 + outstanding one_output 10 =
        submitted one_output 10 + outstanding busy_again 10 +
          acks [(env_ok 0, .scale 10 1), (env_ok 0, .configure 10 2 1 800 600),
            (env_ok 0, .enter (some 1) 100 100), (env_ok 0, .motion 120 100),
            (env_ok 1, .frame_done 10)] 10 ∧
      (∀ o, busy_again.mem 10 = some o → o.frame_done = true → outstanding busy_again 10 = 0) ∧
      (∀ now alloc_ok s1, render busy_again now alloc_ok 10 = some s1 →
        (s1.callbacks = busy_again.callbacks ∧ s1.calls = busy_again.calls) ∨
        (outstanding s1 10 = outstanding busy_again 10 + 1 ∧
          submitted s1 10 = submitted busy_again 10 + 1 ∧
          (∃ o, busy_again.mem 10 = some o ∧ o.frame_done = true) ∧
          ∃ o1, s1.mem 10 = some o1 ∧ o1.frame_done = false)) ∧
      (∀ e ev s1, handle busy_again e ev = some s1 → ev ≠ .frame_done 10 →
        keeps_pending busy_again.mem s1.mem 10)) :=
  ⟨frame_inv_nil _, rfl, by decide, by decide,
    at_most_one_outstanding_frame one_output
      [(env_ok 0, .scale 10 1), (env_ok 0, .configure 10 2 1 800 600),
        (env_ok 0, .enter (some 1) 100 100), (env_ok 0, .motion 120 100),
        (env_ok 1, .frame_done 10)] busy_again (frame_inv_nil _) rfl 10⟩

/-- In a well-formed pool `render` on a live output returns. -/
theorem render_total (s : state) (now : Int) (alloc_ok : Bool) (p : Nat) (o : output)
    (ho : s.mem p = some o) (hwf : pool_wf s.shm) :
    ∃ s1, render s now alloc_ok p = some s1 := by
  unfold render
  rw [ho]
  dsimp only
  split_ifs with h1 h2
  · exact ⟨_, rfl⟩
  · exact ⟨_, rfl⟩
  · obtain ⟨r, shm1, hg, hr, _⟩ := shm_get_buffer_busy s.shm hwf now alloc_ok
      (o.render_width * o.scale) (o.render_height * o.scale) p
    rw [hg]
    cases r with
    | none => exact ⟨_, rfl⟩
    | some buf =>
      obtain ⟨_, _, b1, hb1, _⟩ := hr buf rfl
      dsimp only
      rw [hb1]
      exact ⟨_, rfl⟩

theorem render_wants_render {s s1 : state} {now : Int} {alloc_ok : Bool} {p : Nat} {o : output}
    (h : render s now alloc_ok p = some s1) (ho : s.mem p = some o)
    (hfd : o.frame_done = true) :
    ∃ o1, s1.mem p = some o1 ∧ o1.wants_render = o.wants_render := by
  obtain ⟨o0, ho0, hc⟩ := render_cases h
  rw [ho] at ho0
  have ho0 := Option.some.inj ho0
  subst ho0
  rcases hc with ⟨hf, _⟩ | ⟨_, _, rfl⟩ | ⟨_, _, shm1, _, rfl⟩ | ⟨_, _, buf, shm1, b, _, _, rfl⟩
  · rw [hf] at hfd; exact absurd hfd (by simp)
  · exact ⟨o, ho, rfl⟩
  · exact ⟨o, ho, rfl⟩
  · exact ⟨_, Function.update_same _ _ _, render_paint_wants_render s p o buf b⟩

theorem render_pending (s : state) (now : Int) (alloc_ok : Bool) (p : Nat) (o : output)
    (ho : s.mem p = some o) (hfd : o.frame_done = false) :
    render s now alloc_ok p = some (with_pending s p o) := by
  unfold render
  rw [ho]
  dsimp only
  rw [if_pos (by rw [hfd]; rfl)]
  rfl

theorem with_pending_idem (s : state) (p : Nat) (o : output) :
    with_pending (with_pending s p o) p { o with wants_render := true } = with_pending s p o := by
  unfold with_pending
  simp only [Function.update_idem]

theorem frame_done_callback_pending (s : state) (now : Int) (alloc_ok : Bool) (p : Nat)
    (o : output) :
    frame_done_callback (with_pending s p o) now alloc_ok p =
      render (acked s p o) now alloc_ok p := by
  unfold frame_done_callback with_pending acked
  simp only [Function.update_same, if_true, Function.update_idem]

theorem frame_done_callback_idle (s : state) (now : Int) (alloc_ok : Bool) (p : Nat)
    (o : output) (ho : s.mem p = some o) (hw : o.wants_render = false) :
    frame_done_callback s now alloc_ok p =
      some { s with
        mem := Function.update s.mem p (some { o with frame_done := true })
        callbacks := s.callbacks.erase p } := by
  unfold frame_done_callback
  rw [ho]
  simp only [hw, Bool.false_eq_true, if_false]

/-- C2: let the output at `p` wait for the acknowledgement of a submitted frame
(`frame_done` false), in a well-formed pool.  Two calls of `render` only set
`wants_render`: the log of calls, the callbacks and the pool are as before.  The
following `frame_done_callback` is one call of `render` on the acknowledged
state; it returns, leaves `wants_render` false, submits at most one frame, and
exactly one when the output is the active one and `shm_get_buffer` yields a
buffer; the acknowledgement after that calls nothing and takes no buffer. -/
theorem second_request_is_folded (s : state) (p : Nat) (o : output)
    (ho : s.mem p = some o) (hfd : o.frame_done = false) (hwf : pool_wf s.shm)
    (now1 now2 now3 now4 : Int) (ok1 ok2 ok3 ok4 : Bool) :
    render s now1 ok1 p = some (with_pending s p o) ∧
    render (with_pending s p o) now2 ok2 p = some (with_pending s p o) ∧
    (with_pending s p o).calls = s.calls ∧ (with_pending s p o).callbacks = s.callbacks ∧
    (with_pending s p o).shm = s.shm ∧
    frame_done_callback (with_pending s p o) now3 ok3 p = render (acked s p o) now3 ok3 p ∧
    ∃ s2, frame_done_callback (with_pending s p o) now3 ok3 p = some s2 ∧
      (∃ o2, s2.mem p = some o2 ∧ o2.wants_render = false) ∧
      (submitted s2 p = submitted s p ∨ submitted s2 p = submitted s p + 1) ∧
      (s.current_output = some p →
        (∃ buf shm1, shm_get_buffer s.shm now3 ok3 (o.render_width * o.scale)
          (o.render_height * o.scale) p = some (some buf, shm1)) →
        submitted s2 p = submitted s p + 1) ∧
      ∃ s3, frame_done_callback s2 now4 ok4 p = some s3 ∧
        s3.calls = s2.calls ∧ s3.shm = s2.shm := by
  have h1 := render_pending s now1 ok1 p o ho hfd
  have hm : (with_pending s p o).mem p = some { o with wants_render := true } :=
    Function.update_same _ _ _
  have h2 := render_pending (with_pending s p o) now2 ok2 p _ hm hfd
  rw [with_pending_idem] at h2
  have h3 := frame_done_callback_pending s now3 ok3 p o
  have hma : (acked s p o).mem p = some { o with frame_done := true, wants_render := false } :=
    Function.update_same _ _ _
  obtain ⟨s2, hs2⟩ := render_total (acked s p o) now3 ok3 p _ hma hwf
  obtain ⟨o2, ho2, hw2⟩ := render_wants_render hs2 hma rfl
  have hw2 : o2.wants_render = false := hw2
  refine ⟨h1, h2, rfl, rfl, rfl, h3, s2, by rw [h3]; exact hs2, ⟨o2, ho2, hw2⟩, ?_, ?_,
    ⟨_, frame_done_callback_idle s2 now4 ok4 p o2 ho2 hw2, rfl, rfl⟩⟩
  · rcases render_submission hs2 with ⟨_, hc⟩ | ⟨_, hsub, _⟩
    · left
      unfold submitted
      rw [hc]
      rfl
    · right
      rw [hsub]
      rfl
  · intro hcur hbuf
    obtain ⟨buf, shm1, hg⟩ := hbuf
    obtain ⟨o0, ho0, hc⟩ := render_cases hs2
    rw [hma] at ho0
    have ho0 := Option.some.inj ho0
    subst ho0
    have hnsk : render_skips (acked s p o) p
        { o with frame_done := true, wants_render := false } = false := by
      unfold render_skips acked
      simp [hcur]
    rcases hc with ⟨hf, _⟩ | ⟨_, hsk, _⟩ | ⟨_, _, shm2, hg2, _⟩ | ⟨_, _, buf2, shm2, b, _, _, rfl⟩
    · exact absurd hf (by simp)
    · rw [hnsk] at hsk; exact absurd hsk (by simp)
    · have hg3 : shm_get_buffer s.shm now3 ok3 (o.render_width * o.scale)
          (o.render_height * o.scale) p = some (none, shm2) := hg2
      rw [hg] at hg3
      exact absurd hg3 (by simp)
    · unfold submitted
      simp only [List.countP_append, List.countP_cons, countP_render_paint, is_frame]
      simp [acked]

theorem render_pool_wf {s s1 : state} {now : Int} {alloc_ok : Bool} {p : Nat}
    (h : render s now alloc_ok p = some s1) (hwf : pool_wf s.shm) : pool_wf s1.shm := by
  obtain ⟨o, _, hc⟩ := render_cases h
  rcases hc with ⟨_, rfl⟩ | ⟨_, _, rfl⟩ | ⟨_, _, shm1, hg, rfl⟩ | ⟨_, _, buf, shm1, b, hg, _, rfl⟩
  · exact hwf
  · exact hwf
  · exact pool_wf_get hwf _ _ _ _ _ _ hg
  · exact pool_wf_get hwf _ _ _ _ _ _ hg

theorem render_all_pool_wf {now : Int} {alloc_ok : Nat → Bool} (l : List Nat) {s s1 : state}
    (h : render_all now alloc_ok l s = some s1) (hwf : pool_wf s.shm) : pool_wf s1.shm := by
  induction l generalizing s with
  | nil =>
    unfold render_all at h
    rw [← Option.some.inj h]; exact hwf
  | cons p l ih =>
    unfold render_all at h
    cases hr : render s now (alloc_ok p) p with
    | none => rw [hr] at h; exact absurd h (by simp)
    | some s2 =>
      rw [hr] at h
      exact ih h (render_pool_wf hr hwf)

/-- Every handler keeps the pool well formed. -/
theorem handle_pool_wf {s s1 : state} (e : env) (ev : event) (hwf : pool_wf s.shm)
    (hd : deliverable s ev = true) (h : handle s e ev = some s1) : pool_wf s1.shm := by
  cases ev with
  | configure p surface serial w hh =>
    simp only [handle, layer_surface_configure] at h
    cases ho : s.mem p with
    | none => rw [ho] at h; exact absurd h (by simp)
    | some o =>
      rw [ho] at h
      simp only [] at h
      split_ifs at h with hc
      · rw [← Option.some.inj h]; exact hwf
      · exact render_pool_wf h hwf
  | closed p =>
    simp only [handle, layer_surface_closed] at h
    split_ifs at h with hc
    · cases ho : s.mem p with
      | none => rw [ho] at h; exact absurd h (by simp)
      | some o =>
        rw [ho] at h
        rw [← Option.some.inj h]; exact hwf
    · rw [← Option.some.inj h]; exact hwf
  | scale p factor =>
    simp only [handle, output_scale] at h
    cases ho : s.mem p with
    | none => rw [ho] at h; exact absurd h (by simp)
    | some o =>
      rw [ho] at h
      simp only [] at h
      split_ifs at h with hc
      · exact render_pool_wf h hwf
      · rw [← Option.some.inj h]; exact hwf
  | motion x y =>
    simp only [handle, pointer_motion] at h
    exact render_all_pool_wf s.outputs h hwf
  | enter surface x y =>
    simp only [handle, pointer_enter] at h
    cases hl : enter_lookup s surface with
    | none => rw [hl] at h; exact absurd h (by simp)
    | some p =>
      rw [hl] at h
      dsimp only at h
      exact render_pool_wf h hwf
  | leave =>
    simp only [handle, pointer_leave] at h
    rw [← Option.some.inj h]; exact hwf
  | frame_done p =>
    simp only [handle, frame_done_callback] at h
    cases ho : s.mem p with
    | none => rw [ho] at h; exact absurd h (by simp)
    | some o =>
      rw [ho] at h
      simp only [] at h
      split_ifs at h with hc
      · exact render_pool_wf h hwf
      · rw [← Option.some.inj h]; exact hwf
  | release b =>
    simp only [handle, release_event, buffer_release] at h
    simp only [deliverable] at hd
    cases hb : s.shm.heap b with
    | none => rw [hb] at hd; exact absurd hd (by simp)
    | some buf =>
      rw [hb] at h hd
      rw [← Option.some.inj h]
      exact pool_wf_release hwf e.now b buf hb hd

theorem run_pool_wf (evs : List (env × event)) {s0 s : state} (hwf : pool_wf s0.shm)
    (h : run s0 evs = some s) : pool_wf s.shm := by
  induction evs generalizing s0 with
  | nil =>
    unfold run at h
    rw [← Option.some.inj h]; exact hwf
  | cons ev evs ih =>
    obtain ⟨e, ev⟩ := ev
    unfold run at h
    split_ifs at h with hd
    cases hh : handle s0 e ev with
    | none => rw [hh] at h; exact absurd h (by simp)
    | some s1 =>
      rw [hh] at h
      exact ih (handle_pool_wf e ev hwf hd hh) h

/-- Witness of `second_request_is_folded`: the active output has a frame
outstanding; the acknowledgement after two requests submits one more frame. -/
theorem second_request_is_folded_witness :
    run one_output [(env_ok 0, .scale 10 1), (env_ok 0, .configure 10 2 1 800 600),
        (env_ok 0, .frame_done 10), (env_ok 0, .enter (some 1) 100 100)] =
      some active_waiting ∧
    active_waiting.mem 10 = some (output_at active_waiting 10) ∧
    (output_at active_waiting 10).frame_done = false ∧ pool_wf active_waiting.shm ∧
    active_waiting.current_output = some 10 ∧
    (render active_waiting 1 true 10 =
        some (with_pending active_waiting 10 (output_at active_waiting 10)) ∧
      render (with_pending active_waiting 10 (output_at active_waiting 10)) 1 true 10 =
        some (with_pending active_waiting 10 (output_at active_waiting 10)) ∧
      (with_pending active_waiting 10 (output_at active_waiting 10)).calls =
        active_waiting.calls ∧
      (with_pending active_waiting 10 (output_at active_waiting 10)).callbacks =
        active_waiting.callbacks ∧
      (with_pending active_waiting 10 (output_at active_waiting 10)).shm = active_waiting.shm ∧
      frame_done_callback (with_pending active_waiting 10 (output_at active_waiting 10))
          1 true 10 =
        render (acked active_waiting 10 (output_at active_waiting 10)) 1 true 10 ∧
      ∃ s2, frame_done_callback (with_pending active_waiting 10 (output_at active_waiting 10))
          1 true 10 = some s2 ∧
        (∃ o2, s2.mem 10 = some o2 ∧ o2.wants_render = false) ∧
        (submitted s2 10 = submitted active_waiting 10 ∨
          submitted s2 10 = submitted active_waiting 10 + 1) ∧
        (active_waiting.current_output = some 10 →
          (∃ buf shm1, shm_get_buffer active_waiting.shm 1 true
            ((output_at active_waiting 10).render_width * (output_at active_waiting 10).scale)
            ((output_at active_waiting 10).render_height * (output_at active_waiting 10).scale)
            10 = some (some buf, shm1)) →
          submitted s2 10 = submitted active_waiting 10 + 1) ∧
        ∃ s3, frame_done_callback s2 1 true 10 = some s3 ∧
          s3.calls = s2.calls ∧ s3.shm = s2.shm) :=
  ⟨rfl, rfl, rfl,
    @run_pool_wf [(env_ok 0, .scale 10 1), (env_ok 0, .configure 10 2 1 800 600),
      (env_ok 0, .frame_done 10), (env_ok 0, .enter (some 1) 100 100)] one_output
      active_waiting pool_wf_init rfl,
    rfl,
    second_request_is_folded active_waiting 10 (output_at active_waiting 10) rfl rfl
      (@run_pool_wf [(env_ok 0, .scale 10 1), (env_ok 0, .configure 10 2 1 800 600),
        (env_ok 0, .frame_done 10), (env_ok 0, .enter (some 1) 100 100)] one_output
        active_waiting pool_wf_init rfl)
      1 1 1 1 true true true true⟩

/-- C10: when `render` reaches `shm_get_buffer` (`frame_done` true, no skip) and
gets no buffer, it returns with every output object, the callbacks, the log of
calls, the cursor, the active output and the list of outputs as before; only the
pool is as `shm_get_buffer` left it.  The output object at `p` is the same, so
the next call of `render` starts from the same output state. -/
theorem render_without_buffer (s : state) (now : Int) (alloc_ok : Bool) (p : Nat) (o : output)
    (shm1 : shm_state) (ho : s.mem p = some o) (hfd : o.frame_done = true)
    (hsk : render_skips s p o = false)
    (hg : shm_get_buffer s.shm now alloc_ok (o.render_width * o.scale)
      (o.render_height * o.scale) p = some (none, shm1)) :
    render s now alloc_ok p = some { s with shm := shm1 } ∧
      ({ s with shm := shm1 } : state).mem p = some o ∧
      ({ s with shm := shm1 } : state).mem = s.mem ∧
      ({ s with shm := shm1 } : state).calls = s.calls ∧
      ({ s with shm := shm1 } : state).callbacks = s.callbacks := by
  refine ⟨?_, ho, rfl, rfl, rfl⟩
  unfold render
  rw [ho]
  dsimp only
  rw [if_neg (by rw [hfd]; simp), if_neg (by rw [hsk]; simp), hg]

/-- Witness of `render_without_buffer`: an output configured at 800x600 while no
buffer can be created, rendered again. -/
theorem render_without_buffer_witness :
    configured_no_buffer.mem 10 = some (output_at configured_no_buffer 10) ∧
    (output_at configured_no_buffer 10).frame_done = true ∧
    render_skips configured_no_buffer 10 (output_at configured_no_buffer 10) = false ∧
    shm_get_buffer configured_no_buffer.shm 1 false
        ((output_at configured_no_buffer 10).render_width *
          (output_at configured_no_buffer 10).scale)
        ((output_at configured_no_buffer 10).render_height *
          (output_at configured_no_buffer 10).scale) 10 =
      some (none, ⟨cleaned_heap 1 configured_no_buffer.shm,
        kept_queue 1 configured_no_buffer.shm, configured_no_buffer.shm.next⟩) ∧
    output_view configured_no_buffer 10 = some (true, 800, 600, true, false, false, 0, 0) ∧
    (render configured_no_buffer 1 false 10 =
        some { configured_no_buffer with
          shm := ⟨cleaned_heap 1 configured_no_buffer.shm,
            kept_queue 1 configured_no_buffer.shm, configured_no_buffer.shm.next⟩ } ∧
      ({ configured_no_buffer with
          shm := ⟨cleaned_heap 1 configured_no_buffer.shm,
            kept_queue 1 configured_no_buffer.shm, configured_no_buffer.shm.next⟩ } : state).mem 10 =
        some (output_at configured_no_buffer 10) ∧
      ({ configured_no_buffer with
          shm := ⟨cleaned_heap 1 configured_no_buffer.shm,
            kept_queue 1 configured_no_buffer.shm, configured_no_buffer.shm.next⟩ } : state).mem =
        configured_no_buffer.mem ∧
      ({ configured_no_buffer with
          shm := ⟨cleaned_heap 1 configured_no_buffer.shm,
            kept_queue 1 configured_no_buffer.shm, configured_no_buffer.shm.next⟩ } : state).calls =
        configured_no_buffer.calls ∧
      ({ configured_no_buffer with
          shm := ⟨cleaned_heap 1 configured_no_buffer.shm,
            kept_queue 1 configured_no_buffer.shm, configured_no_buffer.shm.next⟩ } : state).callbacks =
        configured_no_buffer.callbacks) :=
  ⟨rfl, rfl, rfl, rfl, rfl,
    render_without_buffer configured_no_buffer 1 false 10 (output_at configured_no_buffer 10)
      _ rfl rfl rfl rfl⟩

/-- C4 (as amended): in a well-formed pool whose queue splits as `l1 ++ p :: l2`,
where `p` has the requested width, height and cookie and `now - last_used < 3`
and no buffer of `l1` has both, `shm_get_buffer` returns `p`, unlinks it (the
queue becomes what the cleanup leaves of `l1 ++ l2`), marks it busy and creates
no buffer.  In particular, when a busy buffer `r` with that key is released at a
time `t` with `now - t < 3` into a well-formed pool whose queue holds no buffer
with that key and `now - last_used < 3`, the next request returns `r`. -/
theorem shm_get_buffer_reuses_first (s : shm_state) (hwf : pool_wf s) (now : Int)
    (alloc_ok : Bool) (width height : Int) (cookie : Nat) (l1 : List Nat) (p : Nat)
    (l2 : List Nat) (b : buffer) (hq : s.buffer_queue = l1 ++ p :: l2)
    (hb : s.heap p = some b)
    (hkey : b.width = width ∧ b.height = height ∧ b.cookie = cookie)
    (hnew : now - b.last_used < 3)
    (hfirst : ∀ x ∈ l1, ∀ bx, s.heap x = some bx →
      ¬ (bx.width = width ∧ bx.height = height ∧ bx.cookie = cookie ∧
        now - bx.last_used < 3)) :
    (∃ s1, shm_get_buffer s now alloc_ok width height cookie = some (some p, s1) ∧
      s1.buffer_queue = (l1 ++ l2).filter (fun x => young now s.heap x) ∧
      p ∉ s1.buffer_queue ∧
      s1.heap p = some { b with busy := true } ∧
      s1.next = s.next ∧ (∀ x, s.heap x = none → s1.heap x = none)) ∧
    (∀ (s0 : shm_state) (r : Nat) (b0 : buffer) (t : Int), pool_wf s0 →
      s0.heap r = some b0 → b0.busy = true →
      b0.width = width → b0.height = height → b0.cookie = cookie → now - t < 3 →
      (∀ x ∈ s0.buffer_queue, ∀ bx, s0.heap x = some bx →
        ¬ (bx.width = width ∧ bx.height = height ∧ bx.cookie = cookie ∧
          now - bx.last_used < 3)) →
      ∃ s1 s2, buffer_release s0 t r = some s1 ∧
        shm_get_buffer s1 now alloc_ok width height cookie = some (some r, s2) ∧
        s2.heap r = some { b0 with last_used := t }) := by
  refine ⟨first_match_reused s hwf now alloc_ok width height cookie l1 p l2 b hq hb hkey
    hnew hfirst, ?_⟩
  intro s0 r b0 t hwf0 hb0 hbusy hw hh hc ht hnone
  have hrel : buffer_release s0 t r =
      some ⟨Function.update s0.heap r (some { b0 with busy := false, last_used := t }),
        s0.buffer_queue ++ [r], s0.next⟩ := by
    unfold buffer_release
    rw [hb0]
  have hwf1 := pool_wf_release hwf0 t r b0 hb0 hbusy
  have hrq : r ∉ s0.buffer_queue := by
    intro hm
    obtain ⟨bx, hbx, hidle⟩ := (hwf0.2.1 r).mp hm
    rw [hb0] at hbx
    rw [← Option.some.inj hbx, hbusy] at hidle
    exact absurd hidle (by simp)
  obtain ⟨s2, hg, _, _, hheap, _, _⟩ :=
    first_match_reused _ hwf1 now alloc_ok width height cookie s0.buffer_queue r []
      { b0 with busy := false, last_used := t } rfl (Function.update_same _ _ _)
      ⟨hw, hh, hc⟩ ht
      (by
        intro x hx bx hbx
        have hxr : x ≠ r := fun hxr => hrq (hxr ▸ hx)
        have hbx0 : s0.heap x = some bx := by
          have : Function.update s0.heap r
              (some { b0 with busy := false, last_used := t }) x = some bx := hbx
          rw [Function.update_noteq hxr] at this
          exact this
        exact hnone x hx bx hbx0)
  refine ⟨_, s2, hrel, hg, ?_⟩
  rw [hheap, hbusy]

/-- Witness of `shm_get_buffer_reuses_first`: the queue holds an 800x600 and a
1024x768 buffer of cookie 7 released at time 1; at time 2 a 1024x768 request
gets the second. -/
theorem shm_get_buffer_reuses_first_witness :
    pool_wf pool_two_sizes ∧ pool_two_sizes.buffer_queue = [0] ++ 1 :: [] ∧
    pool_two_sizes.heap 1 = some ⟨1024, 768, 7, false, 1⟩ ∧
    (2 : Int) - 1 < 3 ∧
    ∃ s1, shm_get_buffer pool_two_sizes 2 false 1024 768 7 = some (some 1, s1) ∧
      s1.buffer_queue = ([0] ++ []).filter (fun x => young 2 pool_two_sizes.heap x) ∧
      1 ∉ s1.buffer_queue ∧
      s1.heap 1 = some { (⟨1024, 768, 7, false, 1⟩ : buffer) with busy := true } ∧
      s1.next = pool_two_sizes.next ∧
      (∀ x, pool_two_sizes.heap x = none → s1.heap x = none) :=
  ⟨pool_wf_run [.get 0 true 800 600 7, .get 0 true 1024 768 7, .release 1 0, .release 1 1]
      pool_wf_init rfl,
    rfl, rfl, by decide,
    (shm_get_buffer_reuses_first pool_two_sizes
      (pool_wf_run [.get 0 true 800 600 7, .get 0 true 1024 768 7, .release 1 0, .release 1 1]
        pool_wf_init rfl)
      2 false 1024 768 7 [0] 1 [] ⟨1024, 768, 7, false, 1⟩ rfl rfl ⟨rfl, rfl, rfl⟩ (by decide)
      (by
        intro x hx bx hbx hk
        rw [List.mem_singleton] at hx
        subst hx
        have h0 : pool_two_sizes.heap 0 = some ⟨800, 600, 7, false, 1⟩ := rfl
        rw [h0] at hbx
        rw [← Option.some.inj hbx] at hk
        exact absurd hk.1 (by decide))).1⟩

/-- C4 (the sentence on a released buffer, as stated, fails): buffers 0 and 1
have the same key (800, 600, 7); buffer 1 is idle in the queue and buffer 0 is
busy.  Buffer 0 is released at time 1 and a buffer with its key is requested at
time 1: the queue is `[1, 0]` and the call returns buffer 1, not buffer 0. -/
theorem released_buffer_not_returned_next :
    shm_run shm_init [.get 0 true 800 600 7, .get 0 true 800 600 7, .release 0 0,
        .release 0 1, .get 0 true 800 600 7] = some pool_twin ∧
    pool_twin.heap 0 = some ⟨800, 600, 7, true, 0⟩ ∧
    pool_twin.heap 1 = some ⟨800, 600, 7, false, 0⟩ ∧
    pool_twin.buffer_queue = [1] ∧
    (buffer_release pool_twin 1 0).map (fun s => (s.buffer_queue, s.heap 0)) =
      some ([1, 0], some ⟨800, 600, 7, false, 1⟩) ∧
    ((buffer_release pool_twin 1 0).bind
      (fun s => shm_get_buffer s 1 true 800 600 7)).map Prod.fst = some (some 1) := by
  refine ⟨rfl, ?_, ?_, ?_, ?_, ?_⟩ <;> decide

/-- C8 (the code at the failing input): an inactive output was drawn without the
indicator at 800x600 and its frame is acknowledged.  A configure event with
1024x768 updates the render size, and `render` then returns at its skip test:
the only call is the `ack_configure`, no buffer is taken and no frame is
submitted, although buffers can be created. -/
theorem resize_of_drawn_inactive_output_not_repainted :
    run one_output [(env_ok 0, .scale 10 1), (env_ok 0, .configure 10 2 1 800 600),
        (env_ok 0, .frame_done 10)] = some drawn_idle ∧
    output_view drawn_idle 10 = some (true, 800, 600, true, false, true, 0, 0) ∧
    drawn_idle.current_output = none ∧
    run drawn_idle [(env_ok 1, .configure 10 2 2 1024 768)] =
      some (after drawn_idle [(env_ok 1, .configure 10 2 2 1024 768)]) ∧
    output_view (after drawn_idle [(env_ok 1, .configure 10 2 2 1024 768)]) 10 =
      some (true, 1024, 768, true, false, true, 0, 0) ∧
    (after drawn_idle [(env_ok 1, .configure 10 2 2 1024 768)]).calls =
      drawn_idle.calls ++ [.ack_configure 2 2] ∧
    submitted (after drawn_idle [(env_ok 1, .configure 10 2 2 1024 768)]) 10 =
      submitted drawn_idle 10 ∧
    (after drawn_idle [(env_ok 1, .configure 10 2 2 1024 768)]).callbacks = [] ∧
    (after drawn_idle [(env_ok 1, .configure 10 2 2 1024 768)]).shm.next =
      drawn_idle.shm.next := by
  refine ⟨rfl, rfl, rfl, rfl, rfl, ?_, ?_, ?_, ?_⟩ <;> decide

set_option maxRecDepth 8000 in
/-- C9 (the code at the failing inputs): `pointer_motion` calls `render` on every
output without looking at `configured`.  On an output closed while its frame is
outstanding, the motion sets `wants_render`.  On the active output closed after
its acknowledgement, the motion takes a new 800x600 buffer, attaches and commits
it on the `NULL` surface, submits a frame and changes `frame_done` and the last
position.  `output_scale` on the same output, which tests `configured`, calls
nothing. -/
theorem unconfigured_output_is_rendered :
    run one_output [(env_ok 0, .scale 10 1), (env_ok 0, .configure 10 2 1 800 600),
        (env_ok 0, .closed 10)] = some closed_waiting ∧
    output_view closed_waiting 10 = some (false, 800, 600, false, false, true, 0, 0) ∧
    (pointer_motion closed_waiting 1 (fun _ => true) 5 5).map (fun s => output_view s 10) =
      some (some (false, 800, 600, false, true, true, 0, 0)) ∧
    run one_output [(env_ok 0, .scale 10 1), (env_ok 0, .configure 10 2 1 800 600),
        (env_ok 0, .frame_done 10), (env_ok 0, .enter (some 1) 100 100),
        (env_ok 0, .frame_done 10), (env_ok 0, .closed 10)] = some closed_active ∧
    output_view closed_active 10 = some (false, 800, 600, true, false, false, 100, 100) ∧
    closed_active.current_output = some 10 ∧
    attached_to closed_active none = [] ∧ commits closed_active = [some 1, some 1] ∧
    (pointer_motion closed_active 1 (fun _ => true) 120 100).map
        (fun s => (output_view s 10, s.shm.next, submitted s 10)) =
      some (some (false, 800, 600, false, false, false, 120, 100),
        closed_active.shm.next + 1, submitted closed_active 10 + 1) ∧
    (pointer_motion closed_active 1 (fun _ => true) 120 100).map
        (fun s => (attached_to s none, commits s)) =
      some ([2], [some 1, some 1, none]) ∧
    (output_scale closed_active 1 true 10 2).map (fun s => s.calls) =
      some closed_active.calls := by
  exact ⟨rfl, rfl, rfl, rfl, rfl, rfl, rfl, rfl, rfl, rfl, rfl⟩

/-! ### The pixels draw_circle blends -/

theorem draw_circle_col_disc (width height x y radius j : Int) (se : Int × Int) (i : Int)
    (h : row_disc x y radius j se) :
    row_disc x y radius j (draw_circle_col width height x y radius j se i) := by
  unfold draw_circle_col
  dsimp only
  by_cases hb : 0 ≤ i ∧ i < width ∧ 0 ≤ j ∧ j < height
  · by_cases hd : (i - x) * (i - x) + (j - y) * (j - y) ≤ radius * radius
    · rw [if_pos hb, if_pos hd]
      right
      by_cases hs : se.1 < 0
      · rw [if_pos hs]
        exact ⟨hd, hd⟩
      · rw [if_neg hs]
        rcases h with h | h
        · rw [h] at hs
          exact absurd (by decide) hs
        · exact ⟨h.1, hd⟩
    · rw [if_pos hb, if_neg hd]; exact h
  · rw [if_neg hb]; exact h

theorem draw_circle_row_disc (width height x y radius j : Int) :
    row_disc x y radius j (draw_circle_row width height x y radius j) := by
  unfold draw_circle_row
  have key : ∀ (l : List Int) (se : Int × Int), row_disc x y radius j se →
      row_disc x y radius j (l.foldl (draw_circle_col width height x y radius j) se) := by
    intro l
    induction l with
    | nil => intro se h; exact h
    | cons i l ih =>
      intro se h
      exact ih _ (draw_circle_col_disc width height x y radius j se i h)
  exact key _ _ (Or.inl rfl)

/-- The columns of a row that pass the test of the disc are contiguous. -/
theorem in_disc_between {x y radius a b i j : Int} (ha : in_disc x y radius a j)
    (hb : in_disc x y radius b j) (hai : a ≤ i) (hib : i ≤ b) : in_disc x y radius i j := by
  unfold in_disc at *
  by_cases hx : x ≤ i
  · have h1 : (i - x) * (i - x) ≤ (b - x) * (b - x) :=
      mul_le_mul (by omega) (by omega) (by omega) (by omega)
    omega
  · have h1 : (x - i) * (x - i) ≤ (x - a) * (x - a) :=
      mul_le_mul (by omega) (by omega) (by omega) (by omega)
    have e1 : (x - i) * (x - i) = (i - x) * (i - x) := by ring
    have e2 : (x - a) * (x - a) = (a - x) * (a - x) := by ring
    omega

/-- A rectangle of `draw_circle`, on an image that fits the 16-bit fields, is
`(start, j, end - start, 1)` for a row `j` of the loop, with `start ≤ end` columns
of the image that pass the test of the disc. -/
theorem draw_circle_mem (width height x y radius : Int) (hw : width ≤ 32767)
    (hh : height ≤ 32767) (r : pixman_rectangle16)
    (hr : r ∈ draw_circle width height x y radius) :
    ∃ j a b, r = ⟨a, j, b - a, 1⟩ ∧ y - radius ≤ j ∧ j ≤ y + radius ∧ 0 ≤ j ∧ j < height ∧
      0 ≤ a ∧ a ≤ b ∧ b < width ∧ in_disc x y radius a j ∧ in_disc x y radius b j := by
  unfold draw_circle at hr
  rw [List.mem_filterMap] at hr
  obtain ⟨j, hj, hrect⟩ := hr
  have hjr := mem_int_range hj
  have hinv := draw_circle_row_inv width height x y radius j
  have hdisc := draw_circle_row_disc width height x y radius j
  unfold draw_circle_rect at hrect
  by_cases hpos : (draw_circle_row width height x y radius j).2 > 0
  · rw [if_pos hpos] at hrect
    rcases hinv with hinv | ⟨h1, h2, h3, h4, h5⟩
    · rw [hinv] at hpos; exact absurd hpos (by decide)
    · rcases hdisc with hd | ⟨hd1, hd2⟩
      · rw [hd] at hpos; exact absurd hpos (by decide)
      · have e1 := int16_of_fits h1 (by omega)
        have e2 := int16_of_fits h4 (by omega)
        have e3 : uint16 ((draw_circle_row width height x y radius j).2 -
            (draw_circle_row width height x y radius j).1) = _ :=
          uint16_of_fits (by omega) (by omega)
        rw [e1, e2, e3] at hrect
        exact ⟨j, _, _, (Option.some.inj hrect).symm, hjr.1, hjr.2, h4, h5, h1, h2, h3,
          hd1, hd2⟩
  · rw [if_neg hpos] at hrect
    exact absurd hrect (by simp)

/-- C15 (as amended): on an image whose width and height fit the 16-bit fields of
the rectangle (at most 32767), every pixel `(i, j)` covered by a rectangle
`draw_circle` fills is a pixel of the image with `(i-x)^2 + (j-y)^2 ≤ r^2`; the
rectangle is `(start, j, end - start, 1)` and every column from `start` to `end`
of its row passes that test. -/
theorem draw_circle_blends_inside_disc (width height x y radius : Int)
    (hw : width ≤ 32767) (hh : height ≤ 32767) (r : pixman_rectangle16)
    (hr : r ∈ draw_circle width height x y radius) :
    (∀ i j, covers r i j →
      (i - x) * (i - x) + (j - y) * (j - y) ≤ radius * radius ∧
        0 ≤ i ∧ i < width ∧ 0 ≤ j ∧ j < height) ∧
    (∀ i, r.x ≤ i → i ≤ r.x + r.width →
      (i - x) * (i - x) + (r.y - y) * (r.y - y) ≤ radius * radius) := by
  obtain ⟨j0, a, b, hrj, _, _, hj0, hj1, ha, hab, hb, hda, hdb⟩ :=
    draw_circle_mem width height x y radius hw hh r hr
  subst hrj
  constructor
  · intro i j hc
    unfold covers at hc
    dsimp only at hc
    have hj : j = j0 := by omega
    subst hj
    have hd := in_disc_between hda hdb hc.1 (by omega : i ≤ b)
    exact ⟨hd, by omega, by omega, hj0, hj1⟩
  · intro i hi1 hi2
    dsimp only at hi1 hi2 ⊢
    exact in_disc_between hda hdb hi1 (by omega)

/-- Witness of `draw_circle_blends_inside_disc`: the middle row of a radius-2 circle
at (5, 5) on a 10x10 image. -/
theorem draw_circle_blends_inside_disc_witness :
    (10 : Int) ≤ 32767 ∧ (⟨3, 5, 4, 1⟩ : pixman_rectangle16) ∈ draw_circle 10 10 5 5 2 ∧
    ((∀ i j, covers (⟨3, 5, 4, 1⟩ : pixman_rectangle16) i j →
      (i - 5) * (i - 5) + (j - 5) * (j - 5) ≤ 2 * 2 ∧
        0 ≤ i ∧ i < 10 ∧ 0 ≤ j ∧ j < 10) ∧
    (∀ i, (⟨3, 5, 4, 1⟩ : pixman_rectangle16).x ≤ i →
      i ≤ (⟨3, 5, 4, 1⟩ : pixman_rectangle16).x + (⟨3, 5, 4, 1⟩ : pixman_rectangle16).width →
      (i - 5) * (i - 5) + ((⟨3, 5, 4, 1⟩ : pixman_rectangle16).y - 5) *
        ((⟨3, 5, 4, 1⟩ : pixman_rectangle16).y - 5) ≤ 2 * 2)) :=
  ⟨by decide, by decide,
    draw_circle_blends_inside_disc 10 10 5 5 2 (by decide) (by decide) ⟨3, 5, 4, 1⟩
      (by decide)⟩

/-! ### Damage declared by render -/

/-- C11: when `render` paints the active output at scale `≥ 1` (frame
acknowledged, buffer obtained), the `wl_surface_damage_buffer` rectangles it
declares cover the bounding box of the circle of radius `40 * scale` centred at
the scaled last drawn position and the bounding box of the one centred at the
scaled cursor position. -/
theorem render_damages_both_circles (s : state) (now : Int) (alloc_ok : Bool) (p : Nat)
    (o : output) (buf : Nat) (shm1 : shm_state) (ho : s.mem p = some o)
    (hfd : o.frame_done = true) (hcur : s.current_output = some p) (hscale : 1 ≤ o.scale)
    (hwf : pool_wf s.shm)
    (hg : shm_get_buffer s.shm now alloc_ok (o.render_width * o.scale)
      (o.render_height * o.scale) p = some (some buf, shm1)) :
    ∃ s1 new, render s now alloc_ok p = some s1 ∧ s1.calls = s.calls ++ new ∧
      (∀ i j, in_box (o.last_x * o.scale) (o.last_y * o.scale) (40 * o.scale) i j →
        damage_covers new o.surf i j) ∧
      (∀ i j, in_box (s.cursor_x * o.scale) (s.cursor_y * o.scale) (40 * o.scale) i j →
        damage_covers new o.surf i j) := by
  obtain ⟨s1, hs1⟩ := render_total s now alloc_ok p o ho hwf
  obtain ⟨o0, ho0, hc⟩ := render_cases hs1
  rw [ho] at ho0
  have ho0 := Option.some.inj ho0
  subst ho0
  have hnsk : render_skips s p o = false := by
    unfold render_skips
    simp [hcur]
  rcases hc with ⟨hf, _⟩ | ⟨_, hsk, _⟩ | ⟨_, _, shm2, hg2, _⟩ | ⟨_, _, buf2, shm2, b, _, _, hs⟩
  · rw [hf] at hfd; exact absurd hfd (by simp)
  · rw [hnsk] at hsk; exact absurd hsk (by simp)
  · rw [hg] at hg2; exact absurd hg2 (by simp)
  · have hcb : (s.current_output == some p) = true := by rw [hcur]; simp
    refine ⟨s1, (render_paint s p o buf2 b).2 ++ [.frame o.surf p, .commit o.surf], hs1, ?_,
      ?_, ?_⟩
    · rw [hs]
      simp only [List.append_assoc]
    · intro i j hbox
      unfold in_box at hbox
      refine ⟨(o.last_x - 50) * o.scale, (o.last_y - 50) * o.scale, 100 * o.scale,
        100 * o.scale, ?_, ?_⟩
      · unfold render_paint
        dsimp only
        rw [if_pos hcb]
        simp
      · have e1 : (o.last_x - 50) * o.scale = o.last_x * o.scale - 50 * o.scale := by ring
        have e2 : (o.last_y - 50) * o.scale = o.last_y * o.scale - 50 * o.scale := by ring
        rw [e1, e2]
        omega
    · intro i j hbox
      unfold in_box at hbox
      refine ⟨(s.cursor_x - 50) * o.scale, (s.cursor_y - 50) * o.scale, 100 * o.scale,
        100 * o.scale, ?_, ?_⟩
      · unfold render_paint
        dsimp only
        rw [if_pos hcb]
        simp
      · have e1 : (s.cursor_x - 50) * o.scale = s.cursor_x * o.scale - 50 * o.scale := by ring
        have e2 : (s.cursor_y - 50) * o.scale = s.cursor_y * o.scale - 50 * o.scale := by ring
        rw [e1, e2]
        omega

/-- Witness of `render_damages_both_circles`: the indicator moves from (100, 100)
to (150, 100) at scale 1 on a 300x300 buffer; the damage declared covers
x in [60, 190], y in [60, 140]. -/
theorem render_damages_both_circles_witness :
    moved_active.mem 10 = some (output_at moved_active 10) ∧
    (output_at moved_active 10).frame_done = true ∧
    moved_active.current_output = some 10 ∧
    1 ≤ (output_at moved_active 10).scale ∧
    pool_wf moved_active.shm ∧
    ((output_at moved_active 10).last_x, (output_at moved_active 10).last_y,
      moved_active.cursor_x, moved_active.cursor_y, (output_at moved_active 10).scale,
      (output_at moved_active 10).render_width,
      (output_at moved_active 10).render_height) = (100, 100, 150, 100, 1, 300, 300) ∧
    ∃ s1 new, render moved_active 1 true 10 = some s1 ∧
      s1.calls = moved_active.calls ++ new ∧
      (∀ i j, in_box 100 100 40 i j → damage_covers new (some 1) i j) ∧
      (∀ i j, in_box 150 100 40 i j → damage_covers new (some 1) i j) ∧
      (∀ i j, 60 ≤ i → i ≤ 190 → 60 ≤ j → j ≤ 140 → damage_covers new (some 1) i j) := by
  have hwf : pool_wf moved_active.shm :=
    @run_pool_wf [(env_ok 0, .scale 10 1), (env_ok 0, .configure 10 2 1 300 300),
      (env_ok 0, .frame_done 10), (env_ok 0, .enter (some 1) 100 100),
      (env_ok 0, .frame_done 10)] one_output drawn_active pool_wf_init rfl
  have h := render_damages_both_circles moved_active 1 true 10 (output_at moved_active 10)
    2 _ rfl rfl rfl (by decide) hwf rfl
  obtain ⟨s1, new, hr, hcalls, h1, h2⟩ := h
  have h1b : ∀ i j, in_box 100 100 40 i j → damage_covers new (some 1) i j := h1
  have h2b : ∀ i j, in_box 150 100 40 i j → damage_covers new (some 1) i j := h2
  refine ⟨rfl, rfl, rfl, by decide, hwf, rfl, s1, new, hr, hcalls, h1b, h2b, ?_⟩
  intro i j hi1 hi2 hj1 hj2
  by_cases hi : i ≤ 140
  · exact h1b i j (by unfold in_box; omega)
  · exact h2b i j (by unfold in_box; omega)

/-! ### The skip rule -/

theorem cleaned_heap_some {now : Int} {s : shm_state} {x : Nat} {buf : buffer}
    (h : cleaned_heap now s x = some buf) : s.heap x = some buf := by
  unfold cleaned_heap at h
  split_ifs at h
  exact h

/-- A buffer that is busy after `shm_get_buffer` was busy and the same before, or
carries the cookie of the call. -/
theorem shm_get_buffer_busy_cookie {s s1 : shm_state} (hwf : pool_wf s) {now : Int}
    {alloc_ok : Bool} {width height : Int} {cookie : Nat} {r : Option Nat}
    (hg : shm_get_buffer s now alloc_ok width height cookie = some (r, s1)) (x : Nat)
    (buf : buffer) (hx : s1.heap x = some buf) :
    s.heap x = some buf ∨ buf.cookie = cookie := by
  rcases shm_get_buffer_cases s now alloc_ok width height cookie hwf.1 (pool_wf_live hwf) with
    ⟨_, _, he⟩ | ⟨_, _, he⟩ | ⟨l1, p, l2, b, _, _, _, _, he⟩
  · rw [he] at hg
    rw [← (Prod.mk.inj (Option.some.inj hg)).2] at hx
    exact Or.inl (cleaned_heap_some hx)
  · rw [he] at hg
    rw [← (Prod.mk.inj (Option.some.inj hg)).2] at hx
    dsimp only at hx
    by_cases hxn : x = s.next
    · rw [hxn, Function.update_same] at hx
      right
      rw [← Option.some.inj hx]
    · rw [Function.update_noteq hxn] at hx
      exact Or.inl (cleaned_heap_some hx)
  · rw [he] at hg
    rw [← (Prod.mk.inj (Option.some.inj hg)).2] at hx
    dsimp only at hx
    by_cases hxp : x = p
    · rw [hxp, Function.update_same] at hx
      right
      rw [← Option.some.inj hx]
    · rw [Function.update_noteq hxp] at hx
      exact Or.inl (cleaned_heap_some hx)

/-- What a call of `render` for the output at `q` does to another output `p` and
to the buffers of the pool. -/
theorem render_other {s s1 : state} {now : Int} {alloc_ok : Bool} {q : Nat}
    (h : render s now alloc_ok q = some s1) (hwf : pool_wf s.shm) :
    s1.current_output = s.current_output ∧
    (∀ p, p ≠ q → s1.mem p = s.mem p ∧ outstanding s1 p = outstanding s p ∧
      submitted s1 p = submitted s p) ∧
    (∀ x buf, s1.shm.heap x = some buf → s.shm.heap x = some buf ∨ buf.cookie = q) := by
  obtain ⟨o, ho, hc⟩ := render_cases h
  rcases hc with ⟨_, rfl⟩ | ⟨_, _, rfl⟩ | ⟨_, _, shm1, hg, rfl⟩ | ⟨_, _, buf, shm1, b, hg, _, rfl⟩
  · refine ⟨rfl, fun p hp => ⟨Function.update_noteq hp _ _, rfl, rfl⟩, fun x buf hx => Or.inl hx⟩
  · exact ⟨rfl, fun p _ => ⟨rfl, rfl, rfl⟩, fun x buf hx => Or.inl hx⟩
  · exact ⟨rfl, fun p _ => ⟨rfl, rfl, rfl⟩,
      fun x buf hx => shm_get_buffer_busy_cookie hwf hg x buf hx⟩
  · refine ⟨rfl, fun p hp => ⟨Function.update_noteq hp _ _, ?_, ?_⟩,
      fun x buf hx => shm_get_buffer_busy_cookie hwf hg x buf hx⟩
    · unfold outstanding
      have hqp : q ≠ p := fun hc => hp hc.symm
      have hz : [q].count p = 0 := by
        rw [List.count_eq_zero]
        intro hm
        exact hp (List.mem_singleton.mp hm)
      simp only [List.count_append, hz, Nat.add_zero]
    · unfold submitted
      have hqp : q ≠ p := fun hc => hp hc.symm
      simp [List.countP_append, List.countP_cons, countP_render_paint, is_frame, hqp]

/-- The call of `render` for an output that is not the active one and was drawn
without the indicator: nothing but `wants_render` changes, and nothing at all
when the frame is acknowledged. -/
theorem render_skipped {s : state} {p : Nat} {o : output} (now : Int) (alloc_ok : Bool)
    (ho : s.mem p = some o) (hcur : s.current_output ≠ some p)
    (hrwc : o.rendered_without_cursor = true) :
    ∃ s1, render s now alloc_ok p = some s1 ∧ s1.shm = s.shm ∧ s1.calls = s.calls ∧
      s1.callbacks = s.callbacks ∧ s1.current_output = s.current_output ∧
      (∀ r, r ≠ p → s1.mem r = s.mem r) ∧
      (o.frame_done = true → s1 = s) ∧
      (o.frame_done = false → s1.mem p = some { o with wants_render := true }) := by
  by_cases hfd : o.frame_done = true
  · have hsk : render_skips s p o = true := by
      unfold render_skips
      rw [hrwc]
      simp [hcur]
    refine ⟨s, ?_, rfl, rfl, rfl, rfl, fun r _ => rfl, fun _ => rfl, ?_⟩
    · unfold render
      rw [ho]
      dsimp only
      rw [if_neg (by rw [hfd]; simp), if_pos hsk]
    · intro hc; rw [hc] at hfd; exact absurd hfd (by simp)
  · have hfd2 : o.frame_done = false := by simpa using hfd
    refine ⟨_, render_pending s now alloc_ok p o ho hfd2, rfl, rfl, rfl, rfl, ?_, ?_, ?_⟩
    · intro r hr
      exact Function.update_noteq hr _ s.mem
    · intro hc; exact absurd hc hfd
    · intro _; exact Function.update_same p _ s.mem

theorem same_but_wants_render_refl (a : output) : same_but_wants_render a a := rfl

theorem same_but_wants_render_set (a : output) (w : Bool) :
    same_but_wants_render { a with wants_render := w } a := rfl

theorem same_but_wants_render_trans {a b c : output} (h1 : same_but_wants_render a b)
    (h2 : same_but_wants_render b c) : same_but_wants_render a c := by
  unfold same_but_wants_render at *
  rw [← h2, ← h1]

/-- The loop of `pointer_motion` over outputs, seen from an output `p` that is not
the active one and was drawn without the indicator. -/
theorem render_all_skipped {now : Int} {alloc_ok : Nat → Bool} {p : Nat} (l : List Nat)
    {s s1 : state} {o : output} (h : render_all now alloc_ok l s = some s1)
    (ho : s.mem p = some o) (hcur : s.current_output ≠ some p)
    (hrwc : o.rendered_without_cursor = true) (hwf : pool_wf s.shm) :
    submitted s1 p = submitted s p ∧ outstanding s1 p = outstanding s p ∧
    (∀ x buf, s1.shm.heap x = some buf → buf.cookie = p → s.shm.heap x = some buf) ∧
    ∃ o1, s1.mem p = some o1 ∧ same_but_wants_render o1 o ∧
      (o.frame_done = true → o1 = o) := by
  induction l generalizing s o with
  | nil =>
    unfold render_all at h
    rw [← Option.some.inj h]
    exact ⟨rfl, rfl, fun x buf hx _ => hx, o, ho, same_but_wants_render_refl o, fun _ => rfl⟩
  | cons q l ih =>
    unfold render_all at h
    cases hr : render s now (alloc_ok q) q with
    | none => rw [hr] at h; exact absurd h (by simp)
    | some s2 =>
      rw [hr] at h
      dsimp only at h
      by_cases hq : q = p
      · subst hq
        obtain ⟨s3, hr3, hshm, hcalls, hcbs, hcur3, _, hdone, hwait⟩ :=
          render_skipped now (alloc_ok q) ho hcur hrwc
        rw [hr] at hr3
        have e := Option.some.inj hr3
        subst e
        by_cases hfd : o.frame_done = true
        · have e2 := hdone hfd
          subst e2
          exact ih h ho hcur hrwc hwf
        · have hfd2 : o.frame_done = false := by simpa using hfd
          have ho2 := hwait hfd2
          obtain ⟨k1, k2, k3, o1, ho1, hsame, _⟩ :=
            ih h ho2 (by rw [hcur3]; exact hcur) hrwc (by rw [hshm]; exact hwf)
          refine ⟨?_, ?_, ?_, o1, ho1, ?_, fun hc => absurd hc hfd⟩
          · rw [k1]; unfold submitted; rw [hcalls]
          · rw [k2]; unfold outstanding; rw [hcbs]
          · intro x buf hx hck
            have := k3 x buf hx hck
            rw [hshm] at this
            exact this
          · exact same_but_wants_render_trans hsame (same_but_wants_render_set o true)
      · have hpq : p ≠ q := fun hc => hq hc.symm
        obtain ⟨hcur2, hoth, hheap⟩ := render_other hr hwf
        obtain ⟨hmem, hout, hsub⟩ := hoth p hpq
        obtain ⟨k1, k2, k3, o1, ho1, hsame, hdone⟩ :=
          ih h (by rw [hmem]; exact ho) (by rw [hcur2]; exact hcur) hrwc
            (render_pool_wf hr hwf)
        refine ⟨by rw [k1, hsub], by rw [k2, hout], ?_, o1, ho1, hsame, hdone⟩
        intro x buf hx hck
        rcases hheap x buf (k3 x buf hx hck) with h1 | h1
        · exact h1
        · rw [hck] at h1
          exact absurd h1 hpq

/-- C12: let the output at `p` be other than the active output, with
`rendered_without_cursor` true, in a well-formed pool.  The call of `render` for
it takes no buffer, makes no call and creates no callback, and returns the state
as it is when `frame_done` is true.  After a whole `pointer_motion` no frame was
submitted for `p`, no callback was bound to it, no buffer with its cookie was
created or changed, its fields other than `wants_render` are as before, and all
its fields are when `frame_done` was true. -/
theorem skipped_output_not_rerendered (s : state) (p : Nat) (o : output) (now : Int)
    (alloc_ok : Nat → Bool) (x y : Int) (s1 : state) (ho : s.mem p = some o)
    (hcur : s.current_output ≠ some p) (hrwc : o.rendered_without_cursor = true)
    (hwf : pool_wf s.shm) (hm : pointer_motion s now alloc_ok x y = some s1) :
    (∀ t ok, ∃ s2, render s t ok p = some s2 ∧ s2.shm = s.shm ∧ s2.calls = s.calls ∧
      s2.callbacks = s.callbacks ∧ (o.frame_done = true → s2 = s)) ∧
    submitted s1 p = submitted s p ∧ outstanding s1 p = outstanding s p ∧
    (∀ b buf, s1.shm.heap b = some buf → buf.cookie = p → s.shm.heap b = some buf) ∧
    ∃ o1, s1.mem p = some o1 ∧ same_but_wants_render o1 o ∧
      (o.frame_done = true → o1 = o) := by
  constructor
  · intro t ok
    obtain ⟨s2, h2, hshm, hcalls, hcbs, _, _, hdone, _⟩ := render_skipped t ok ho hcur hrwc
    exact ⟨s2, h2, hshm, hcalls, hcbs, hdone⟩
  · unfold pointer_motion at hm
    have k := render_all_skipped s.outputs hm ho hcur hrwc hwf
    exact k

set_option maxRecDepth 8000 in
/-- Witness of `skipped_output_not_rerendered`: of two outputs the first is active
and the second was drawn without the indicator; a pointer motion submits a frame
for the first and leaves the second alone. -/
theorem skipped_output_not_rerendered_witness :
    active_and_idle.mem 20 = some (output_at active_and_idle 20) ∧
    active_and_idle.current_output ≠ some 20 ∧
    (output_at active_and_idle 20).rendered_without_cursor = true ∧
    pool_wf active_and_idle.shm ∧
    pointer_motion active_and_idle 1 (fun _ => true) 120 100 = some active_and_idle_moved ∧
    submitted active_and_idle_moved 10 = submitted active_and_idle 10 + 1 ∧
    ((∀ t ok, ∃ s2, render active_and_idle t ok 20 = some s2 ∧
        s2.shm = active_and_idle.shm ∧ s2.calls = active_and_idle.calls ∧
        s2.callbacks = active_and_idle.callbacks ∧
        ((output_at active_and_idle 20).frame_done = true → s2 = active_and_idle)) ∧
      submitted active_and_idle_moved 20 = submitted active_and_idle 20 ∧
      outstanding active_and_idle_moved 20 = outstanding active_and_idle 20 ∧
      (∀ b buf, active_and_idle_moved.shm.heap b = some buf → buf.cookie = 20 →
        active_and_idle.shm.heap b = some buf) ∧
      ∃ o1, active_and_idle_moved.mem 20 = some o1 ∧
        same_but_wants_render o1 (output_at active_and_idle 20) ∧
        ((output_at active_and_idle 20).frame_done = true →
          o1 = output_at active_and_idle 20)) :=
  ⟨rfl, by decide, rfl,
    @run_pool_wf [(env_ok 0, .scale 10 1), (env_ok 0, .scale 20 1),
      (env_ok 0, .configure 10 2 1 800 600), (env_ok 0, .configure 20 4 1 800 600),
      (env_ok 0, .frame_done 10), (env_ok 0, .frame_done 20),
      (env_ok 0, .enter (some 1) 100 100), (env_ok 0, .frame_done 10)] two_outputs
      active_and_idle pool_wf_init rfl,
    rfl, by decide,
    skipped_output_not_rerendered active_and_idle 20 (output_at active_and_idle 20) 1
      (fun _ => true) 120 100 active_and_idle_moved rfl (by decide) rfl
      (@run_pool_wf [(env_ok 0, .scale 10 1), (env_ok 0, .scale 20 1),
        (env_ok 0, .configure 10 2 1 800 600), (env_ok 0, .configure 20 4 1 800 600),
        (env_ok 0, .frame_done 10), (env_ok 0, .frame_done 20),
        (env_ok 0, .enter (some 1) 100 100), (env_ok 0, .frame_done 10)] two_outputs
        active_and_idle pool_wf_init rfl)
      rfl⟩

/-! ### A frame acknowledgement after the output is gone -/

/-- C13 (the code at the failing input): an output has a frame outstanding and its
global is removed: the output object is freed and leaves `outputs`, while the
frame callback stays live and can still be delivered.  `frame_done_callback` then
dereferences its `data` pointer without any lookup, which is a fault on the freed
object, not a no-op.  `layer_surface_closed` on the same pointer looks it up in
`outputs`, misses and changes nothing. -/
theorem late_frame_done_dereferences_freed_output :
    run one_output [(env_ok 0, .scale 10 1), (env_ok 0, .configure 10 2 1 800 600)] =
      some frame_in_flight ∧
    frame_in_flight.outputs = [10] ∧ outstanding frame_in_flight 10 = 1 ∧
    output_view frame_in_flight 10 = some (true, 800, 600, false, false, true, 0, 0) ∧
    output_removed.outputs = [] ∧ output_removed.mem 10 = none ∧
    output_removed.callbacks = [10] ∧
    deliverable output_removed (.frame_done 10) = true ∧
    frame_done_callback output_removed 1 true 10 = none ∧
    run output_removed [(env_ok 1, .frame_done 10)] = none ∧
    layer_surface_closed output_removed 10 = some output_removed := by
  exact ⟨rfl, rfl, rfl, rfl, rfl, rfl, rfl, rfl, rfl, rfl, rfl⟩

/-! ### The flag rendered_without_cursor -/

theorem scan_call_quiet (p : Nat) (st : paint_scan) (c : call) (hc : not_frame c = true) :
    (scan_call p st c).last = st.last := by
  cases c <;> first | rfl | exact absurd hc (by simp [not_frame])

theorem scan_quiet (p : Nat) (seg : List call) (hseg : ∀ c ∈ seg, not_frame c = true)
    (st : paint_scan) : (seg.foldl (scan_call p) st).last = st.last := by
  induction seg generalizing st with
  | nil => rfl
  | cons c seg ih =>
    rw [List.foldl_cons, ih (fun d hd => hseg d (List.mem_cons_of_mem _ hd)),
      scan_call_quiet p st c (hseg c (List.mem_cons_self _ _))]

theorem last_frame_append_quiet (calls seg : List call) (p : Nat)
    (hseg : ∀ c ∈ seg, not_frame c = true) :
    last_frame_has_indicator (calls ++ seg) p = last_frame_has_indicator calls p := by
  unfold last_frame_has_indicator
  rw [List.foldl_append, scan_quiet p seg hseg]

theorem render_paint_quiet (s : state) (q : Nat) (o : output) (buf : Nat) (b : buffer) :
    ∀ c ∈ (render_paint s q o buf b).2, not_frame c = true := by
  intro c hc
  unfold render_paint at hc
  dsimp only at hc
  split_ifs at hc <;>
    simp only [List.mem_append, List.mem_cons, List.mem_map, List.mem_singleton,
      List.not_mem_nil, or_false] at hc <;>
    aesop

theorem filter_ne_contains (l : List Nat) (buf : Nat) :
    (l.filter (fun b => b != buf)).contains buf = false := by
  rw [Bool.eq_false_iff]
  intro hc
  simp at hc

theorem render_paint_active_flag (s : state) (q : Nat) (o : output) (buf : Nat) (b : buffer)
    (hcb : (s.current_output == some q) = true) :
    (render_paint s q o buf b).1.rendered_without_cursor = false := by
  unfold render_paint
  dsimp only
  rw [if_pos hcb]

/-- The frame `render` submits for an output that is not the active one is
painted without the indicator. -/
theorem scan_inactive_frame (s : state) (q : Nat) (o : output) (buf : Nat) (b : buffer)
    (hcb : ¬ (s.current_output == some q) = true) (st : paint_scan) :
    (((render_paint s q o buf b).2 ++ [call.frame o.surf q, call.commit o.surf]).foldl
      (scan_call q) st).last = some false := by
  unfold render_paint
  dsimp only
  rw [if_neg hcb]
  split_ifs <;> simp [scan_call, filter_ne_contains]

theorem scan_other_frame (p q : Nat) (hqp : q ≠ p) (seg : List call)
    (hseg : ∀ c ∈ seg, not_frame c = true) (surf : Option Nat) (st : paint_scan) :
    ((seg ++ [call.frame surf q, call.commit surf]).foldl (scan_call p) st).last = st.last := by
  rw [List.foldl_append]
  have hb : (q == p) = false := by simpa using hqp
  simp only [List.foldl_cons, List.foldl_nil, scan_call, hb, Bool.false_eq_true, if_false]
  exact scan_quiet p seg hseg st

theorem flag_inv_update {calls : List call} {mem : Nat → Option output} {p : Nat}
    {o o1 : output} (h : flag_inv calls mem) (ho : mem p = some o)
    (hflag : o1.rendered_without_cursor = true → o.rendered_without_cursor = true) :
    flag_inv calls (Function.update mem p (some o1)) := by
  intro r o2 ho2 hr2
  by_cases hrp : r = p
  · subst hrp
    rw [Function.update_same] at ho2
    have e := Option.some.inj ho2
    subst e
    exact h r o ho (hflag hr2)
  · rw [Function.update_noteq hrp] at ho2
    exact h r o2 ho2 hr2

theorem flag_inv_quiet {calls : List call} {mem : Nat → Option output} (seg : List call)
    (h : flag_inv calls mem) (hseg : ∀ c ∈ seg, not_frame c = true) :
    flag_inv (calls ++ seg) mem := by
  intro r o ho hr
  rw [last_frame_append_quiet calls seg r hseg]
  exact h r o ho hr

theorem render_flag_inv {s s1 : state} {now : Int} {alloc_ok : Bool} {q : Nat}
    (h : render s now alloc_ok q = some s1) (hinv : flag_inv s.calls s.mem) :
    flag_inv s1.calls s1.mem := by
  obtain ⟨o, ho, hc⟩ := render_cases h
  rcases hc with ⟨_, rfl⟩ | ⟨_, _, rfl⟩ | ⟨_, _, shm1, _, rfl⟩ | ⟨_, _, buf, shm1, b, _, _, rfl⟩
  · exact flag_inv_update hinv ho (fun hf => hf)
  · exact hinv
  · exact hinv
  · intro p o1 ho1 hr1
    dsimp only at ho1 ⊢
    unfold last_frame_has_indicator
    rw [List.append_assoc, List.foldl_append]
    by_cases hpq : p = q
    · subst hpq
      rw [Function.update_same] at ho1
      have e := Option.some.inj ho1
      subst e
      by_cases hcb : (s.current_output == some p) = true
      · rw [render_paint_active_flag s p o buf b hcb] at hr1
        exact absurd hr1 (by simp)
      · exact scan_inactive_frame s p o buf b hcb _
    · rw [Function.update_noteq hpq] at ho1
      rw [scan_other_frame p q (fun hc => hpq hc.symm) _ (render_paint_quiet s q o buf b)]
      exact hinv p o1 ho1 hr1

theorem render_all_flag_inv {now : Int} {alloc_ok : Nat → Bool} (l : List Nat) {s s1 : state}
    (h : render_all now alloc_ok l s = some s1) (hinv : flag_inv s.calls s.mem) :
    flag_inv s1.calls s1.mem := by
  induction l generalizing s with
  | nil =>
    unfold render_all at h
    rw [← Option.some.inj h]; exact hinv
  | cons p l ih =>
    unfold render_all at h
    cases hr : render s now (alloc_ok p) p with
    | none => rw [hr] at h; exact absurd h (by simp)
    | some s2 =>
      rw [hr] at h
      exact ih h (render_flag_inv hr hinv)

theorem output_layer_destroy_calls_quiet (o : output) :
    ∀ c ∈ output_layer_destroy_calls o, not_frame c = true := by
  intro c hc
  unfold output_layer_destroy_calls at hc
  cases hl : o.layer <;> cases hf : o.surf <;> rw [hl, hf] at hc <;> simp at hc <;>
    aesop

/-- Every handler keeps the meaning of the flag `rendered_without_cursor`. -/
theorem handle_flag_inv {s s1 : state} (e : env) (ev : event)
    (hinv : flag_inv s.calls s.mem) (h : handle s e ev = some s1) :
    flag_inv s1.calls s1.mem := by
  cases ev with
  | configure p surface serial w hh =>
    simp only [handle, layer_surface_configure] at h
    cases ho : s.mem p with
    | none => rw [ho] at h; exact absurd h (by simp)
    | some o =>
      rw [ho] at h
      simp only [] at h
      split_ifs at h with hc
      · rw [← Option.some.inj h]
        exact flag_inv_quiet _ hinv (by intro c hc; simp at hc; aesop)
      · refine render_flag_inv h ?_
        exact flag_inv_update
          (flag_inv_quiet [call.ack_configure surface serial] hinv
            (by intro c hc; simp at hc; subst hc; rfl)) ho (fun hf => hf)
  | closed p =>
    simp only [handle, layer_surface_closed] at h
    split_ifs at h with hc
    · cases ho : s.mem p with
      | none => rw [ho] at h; exact absurd h (by simp)
      | some o =>
        rw [ho] at h
        rw [← Option.some.inj h]
        exact flag_inv_update
          (flag_inv_quiet _ hinv (output_layer_destroy_calls_quiet o)) ho (fun hf => hf)
    · rw [← Option.some.inj h]; exact hinv
  | scale p factor =>
    simp only [handle, output_scale] at h
    cases ho : s.mem p with
    | none => rw [ho] at h; exact absurd h (by simp)
    | some o =>
      rw [ho] at h
      simp only [] at h
      split_ifs at h with hc
      · refine render_flag_inv h ?_
        exact flag_inv_update hinv ho (fun hf => hf)
      · rw [← Option.some.inj h]
        exact flag_inv_update hinv ho (fun hf => hf)
  | motion x y =>
    simp only [handle, pointer_motion] at h
    exact render_all_flag_inv s.outputs h hinv
  | enter surface x y =>
    simp only [handle, pointer_enter] at h
    cases hl : enter_lookup s surface with
    | none => rw [hl] at h; exact absurd h (by simp)
    | some p =>
      rw [hl] at h
      dsimp only at h
      exact render_flag_inv h hinv
  | leave =>
    simp only [handle, pointer_leave] at h
    rw [← Option.some.inj h]; exact hinv
  | frame_done p =>
    simp only [handle, frame_done_callback] at h
    cases ho : s.mem p with
    | none => rw [ho] at h; exact absurd h (by simp)
    | some o =>
      rw [ho] at h
      simp only [] at h
      split_ifs at h with hc
      · refine render_flag_inv h ?_
        exact flag_inv_update hinv ho (fun hf => hf)
      · rw [← Option.some.inj h]
        exact flag_inv_update hinv ho (fun hf => hf)
  | release b =>
    simp only [handle, release_event] at h
    cases hb : buffer_release s.shm e.now b with
    | none => rw [hb] at h; exact absurd h (by simp)
    | some shm1 =>
      rw [hb] at h
      rw [← Option.some.inj h]; exact hinv

theorem run_flag_inv (evs : List (env × event)) {s0 s : state}
    (hinv : flag_inv s0.calls s0.mem) (h : run s0 evs = some s) :
    flag_inv s.calls s.mem := by
  induction evs generalizing s0 with
  | nil =>
    unfold run at h
    rw [← Option.some.inj h]; exact hinv
  | cons ev evs ih =>
    obtain ⟨e, ev⟩ := ev
    unfold run at h
    split_ifs at h with hd
    cases hh : handle s0 e ev with
    | none => rw [hh] at h; exact absurd h (by simp)
    | some s1 =>
      rw [hh] at h
      exact ih (handle_flag_inv e ev hinv hh) h

/-- C14: start from outputs as `handle_global` creates them
(`rendered_without_cursor` false).  After every sequence of configure, closed,
scale, pointer motion, enter, leave, frame-done and buffer-release events, an
output whose `rendered_without_cursor` is true has had a frame submitted, and
the buffer of its most recent frame was filled whole and received no rectangle
of the indicator; so whenever the skip test of `render` holds for an output, the
frame it last submitted shows no indicator. -/
theorem flag_means_frame_without_indicator (s0 : state) (evs : List (env × event))
    (s : state) (h0 : ∀ p o, s0.mem p = some o → o.rendered_without_cursor = false)
    (hrun : run s0 evs = some s) (p : Nat) (o : output) (ho : s.mem p = some o) :
    (o.rendered_without_cursor = true → last_frame_has_indicator s.calls p = some false) ∧
    (render_skips s p o = true → last_frame_has_indicator s.calls p = some false) := by
  have hinv0 : flag_inv s0.calls s0.mem := by
    intro r o0 ho0 hr0
    rw [h0 r o0 ho0] at hr0
    exact absurd hr0 (by simp)
  have hinv := run_flag_inv evs hinv0 hrun
  refine ⟨fun hr => hinv p o ho hr, fun hsk => ?_⟩
  unfold render_skips at hsk
  rw [Bool.and_eq_true] at hsk
  exact hinv p o ho hsk.2

theorem one_output_fresh :
    ∀ p o, one_output.mem p = some o → o.rendered_without_cursor = false := by
  intro p o ho
  unfold one_output state_init at ho
  dsimp only at ho
  split_ifs at ho
  rw [← Option.some.inj ho]
  rfl

/-- Witness of `flag_means_frame_without_indicator`: an inactive output drawn at
800x600 carries the flag and its frame holds no indicator; the frame of the
active output of `drawn_active` is read as holding one. -/
theorem flag_means_frame_without_indicator_witness :
    (∀ p o, one_output.mem p = some o → o.rendered_without_cursor = false) ∧
    run one_output [(env_ok 0, .scale 10 1), (env_ok 0, .configure 10 2 1 800 600),
        (env_ok 0, .frame_done 10)] = some drawn_idle ∧
    drawn_idle.mem 10 = some (output_at drawn_idle 10) ∧
    (output_at drawn_idle 10).rendered_without_cursor = true ∧
    render_skips drawn_idle 10 (output_at drawn_idle 10) = true ∧
    last_frame_has_indicator drawn_active.calls 10 = some true ∧
    (((output_at drawn_idle 10).rendered_without_cursor = true →
        last_frame_has_indicator drawn_idle.calls 10 = some false) ∧
      (render_skips drawn_idle 10 (output_at drawn_idle 10) = true →
        last_frame_has_indicator drawn_idle.calls 10 = some false)) :=
  ⟨one_output_fresh, rfl, rfl, rfl, rfl, by decide,
    flag_means_frame_without_indicator one_output
      [(env_ok 0, .scale 10 1), (env_ok 0, .configure 10 2 1 800 600),
        (env_ok 0, .frame_done 10)] drawn_idle one_output_fresh rfl 10
      (output_at drawn_idle 10) rfl⟩

/-! ### draw_circle on an image wider than the 16-bit fields -/

/-- C15 (as stated, for every buffer size, it fails): on a 100000x100 image the
radius-2 circle at (70000, 50) has `start = 69998` and `end = 70002` on row 50,
all arithmetic exact; the conversion of `start` to the `int16_t` field `x` gives
4462, so the rectangle filled is `(4462, 50, 4, 1)`.  It covers the pixel
(4463, 50) of the image, which is not in the disc. -/
theorem draw_circle_wraps_on_wide_image :
    draw_circle_row 100000 100 70000 50 2 50 = (69998, 70002) ∧
    int16 69998 = 4462 ∧
    (⟨4462, 50, 4, 1⟩ : pixman_rectangle16) ∈ draw_circle 100000 100 70000 50 2 ∧
    covers (⟨4462, 50, 4, 1⟩ : pixman_rectangle16) 4463 50 ∧
    ((0 : Int) ≤ 4463 ∧ (4463 : Int) < 100000 ∧ (0 : Int) ≤ 50 ∧ (50 : Int) < 100) ∧
    ¬ (((4463 : Int) - 70000) * (4463 - 70000) + (50 - 50) * (50 - 50) ≤ 2 * 2) := by
  decide

end Mhalo
